import Mathlib

/-!
# Tegra DTB selection and memory-range patching (`kexec/arch/arm/mach-tegra.c`)

A shallow embedding of `tegra_dtb_compatible`, `tegra_choose_dtb` and
`tegra_add_extra_regs`, and theorems about them.

Conventions of the embedding.

* Memory is a list of bytes (`List Nat`, a byte being a number below 256); a
  pointer into the image is a byte offset, and `dtb_len` is the length of the
  image list.  In `tegra_choose_dtb_loop` pointer arithmetic is done in `Nat`
  (no address wrap-around); `scan_iter_32` is the loop body with the sums taken
  modulo `2^32`, as on the 32-bit target.
* The device-tree accessor library (`libfdt`) is not part of the translated
  file.  Its read-only accessors are taken as a parameter, `LibFdt`; a call that
  receives the pointer `dtb` receives the memory from the cursor to the end of
  the image, a call that receives the staged header copy receives exactly those
  bytes.
* `/proc` files are byte lists; `none` stands for a file that cannot be opened.
* A `while` loop that the source does not bound is run with fuel; `none` is
  "fuel exhausted", never a result.
-/

namespace MachTegra

/-! ## Data model -/

/-- The sentinel `#define INVALID_REV_ID 0xFFFFFFFF`. -/
def INVALID_REV_ID : Nat := 0xFFFFFFFF

/-- The `struct tegra_id`: three `uint32_t` fields. -/
structure tegra_id where
  platform_id : Nat
  hardware_id : Nat
  board_rev : Nat
deriving DecidableEq, Repr

/-- The constant `sizeof(struct tegra_id)`: three 32-bit words. -/
def sizeof_tegra_id : Nat := 12

/-- The conversion `fdt32_to_cpu` applied to the 32-bit word stored at byte
offset `off` of `mem`: the big-endian value of the four bytes found there. -/
def fdt32_to_cpu (mem : List Nat) (off : Nat) : Nat :=
  (mem.getD off 0 % 256) * 16777216 + (mem.getD (off + 1) 0 % 256) * 65536
    + (mem.getD (off + 2) 0 % 256) * 256 + mem.getD (off + 3) 0 % 256

/-- The read-only part of the device-tree accessor library used by
`tegra_dtb_compatible` and `tegra_choose_dtb`.

* `sizeof_fdt_header` is `sizeof(struct fdt_header)`;
* `fdt_check_header` and `fdt_totalsize` are applied to the staged header copy;
* `fdt_path_offset` and `fdt_getprop` are applied to the memory starting at the
  blob pointer; `fdt_getprop` yields `none` for a `NULL` result and otherwise
  the property value, whose length is the reported `len`. -/
structure LibFdt where
  sizeof_fdt_header : Nat
  fdt_check_header : List Nat → Int
  fdt_totalsize : List Nat → Nat
  fdt_path_offset : List Nat → String → Int
  fdt_getprop : List Nat → Int → String → Option (List Nat)

/-! ## `tegra_dtb_compatible` -/

/-- The call `tegra_dtb_compatible(dtb, devid, dtb_id)`: the returned `uint32_t`
and the content of the out-parameter `*dtb_id` after the call (`dtb_id` on entry is its
content before the call, left untouched on the early returns). -/
def tegra_dtb_compatible (lib : LibFdt) (dtb : List Nat) (devid dtb_id : tegra_id) :
    Nat × tegra_id :=
  let root_offset := lib.fdt_path_offset dtb "/"
  if root_offset < 0 then (0, dtb_id)
  else
    match lib.fdt_getprop dtb root_offset "nvidia,boardids" with
    | none => (0, dtb_id)
    | some prop =>
      if prop.length ≤ 0 then (0, dtb_id)
      else if prop.length < sizeof_tegra_id then (0, dtb_id)
      else
        let dtb_id' : tegra_id :=
          { platform_id := fdt32_to_cpu prop 0
            hardware_id := fdt32_to_cpu prop 4
            board_rev := fdt32_to_cpu prop 8 }
        if dtb_id'.platform_id ≠ devid.platform_id ∨
            dtb_id'.hardware_id ≠ devid.hardware_id then (0, dtb_id')
        else (1, dtb_id')

/-! ## `tegra_choose_dtb` -/

/-- The local variables of `tegra_choose_dtb` that live across loop iterations.
`dtb` and `bestmatch_tag` are byte offsets into the image (`none` is `NULL`).
`yielded` is a history variable, absent from the source: the `(offset, size)`
of every entry that passed the header checks so far, oldest first. -/
structure ScanState where
  dtb : Nat
  dtb_id : tegra_id
  bestmatch_tag : Option Nat
  bestmatch_tag_size : Nat
  bestmatch_board_rev_id : Nat
  yielded : List (Nat × Nat)
deriving DecidableEq, Repr

/-- What a call of `tegra_choose_dtb` leaves behind: the returned `int`, the
out-parameters `*dtb_buf` (content of the freshly allocated buffer) and
`*dtb_length`, `none` when the call did not write them, and the history of
scanned entries. -/
structure ChooseResult where
  ret : Int
  dtb_buf : Option (List Nat)
  dtb_length : Option Nat
  candidates : List (Nat × Nat)
deriving DecidableEq, Repr

/-- The call `memcpy(dst, dtb, n)` seen from the destination: `n` bytes of the image
starting at offset `dtb`. -/
def memcpy_from (dtb_img : List Nat) (dtb n : Nat) : List Nat :=
  (dtb_img.drop dtb).take n

/-- The loop `while (dtb < dtb_end && *dtb == 0) ++dtb;` where `mem` is the
memory from `dtb` up to `dtb_end`. -/
def skip_padding : List Nat → Nat → Nat
  | [], dtb => dtb
  | b :: mem, dtb => if b = 0 then skip_padding mem (dtb + 1) else dtb

/-- The code after the scan loop: the recorded best match, if any, is copied
out. -/
def tegra_choose_dtb_finish (dtb_img : List Nat) (s : ScanState) : ChooseResult :=
  match s.bestmatch_tag with
  | some tag =>
    { ret := 1
      dtb_buf := some (memcpy_from dtb_img tag s.bestmatch_tag_size)
      dtb_length := some s.bestmatch_tag_size
      candidates := s.yielded }
  | none => { ret := 0, dtb_buf := none, dtb_length := none, candidates := s.yielded }

/-- Lines 110-119, the `else if (dtb_id.board_rev < devid.board_rev)` branch:
the entry at the cursor, of identity `dtb_id` and size `dtb_size`, is recorded
as best match when it is older than the device and improves on the record. -/
def record_bestmatch (devid dtb_id : tegra_id) (dtb_size : Nat) (s : ScanState) : ScanState :=
  if dtb_id.board_rev < devid.board_rev then
    if s.bestmatch_board_rev_id = INVALID_REV_ID ∨
        s.bestmatch_board_rev_id < dtb_id.board_rev then
      { s with
        bestmatch_tag := some s.dtb
        bestmatch_tag_size := dtb_size
        bestmatch_board_rev_id := dtb_id.board_rev }
    else s
  else s

/-- Lines 122-127: `dtb += dtb_size;` followed by the padding skip. -/
def next_dtb (dtb_img : List Nat) (dtb_size : Nat) (s : ScanState) : ScanState :=
  { s with dtb := skip_padding (dtb_img.drop (s.dtb + dtb_size)) (s.dtb + dtb_size) }

/-- The scan loop of `tegra_choose_dtb` followed by the code after it, run for
at most `fuel` iterations.  Offsets are natural numbers, so the sums of lines
82, 92 and 123 are exact.  The 32-bit target takes them modulo `2^32`:
`scan_iter_32` is the loop body computed that way, and `scan_iter_32_eq` shows
that the two agree as long as the address of the cursor plus the declared size
stays below `2^32`. -/
def tegra_choose_dtb_loop (lib : LibFdt) (devid : tegra_id) (dtb_img : List Nat) :
    Nat → ScanState → Option ChooseResult
  | 0, _ => none
  | fuel + 1, s =>
    if s.dtb + lib.sizeof_fdt_header < dtb_img.length then
      let dtb_hdr := memcpy_from dtb_img s.dtb lib.sizeof_fdt_header
      if lib.fdt_check_header dtb_hdr ≠ 0 ∨
          s.dtb + lib.fdt_totalsize dtb_hdr % 4294967296 > dtb_img.length then
        some (tegra_choose_dtb_finish dtb_img s)
      else
        let dtb_size := lib.fdt_totalsize dtb_hdr % 4294967296
        let c := tegra_dtb_compatible lib (dtb_img.drop s.dtb) devid s.dtb_id
        let s1 : ScanState :=
          { s with dtb_id := c.2, yielded := s.yielded ++ [(s.dtb, dtb_size)] }
        if c.1 ≠ 0 then
          if c.2.board_rev = devid.board_rev then
            some { ret := 1
                   dtb_buf := some (memcpy_from dtb_img s.dtb dtb_size)
                   dtb_length := some dtb_size
                   candidates := s1.yielded }
          else
            tegra_choose_dtb_loop lib devid dtb_img fuel
              (next_dtb dtb_img dtb_size (record_bestmatch devid c.2 dtb_size s1))
        else
          tegra_choose_dtb_loop lib devid dtb_img fuel (next_dtb dtb_img dtb_size s1)
    else some (tegra_choose_dtb_finish dtb_img s)

/-- The call `fread(&devid, sizeof(struct tegra_id), 1, f)` seen from `devid`:
the bytes of `devid` after the call, `devid_mem` being its bytes before (the
source does not initialise it).  A file shorter than the record overwrites
only the bytes it has. -/
def fread_devid (file devid_mem : List Nat) : List Nat :=
  file.take sizeof_tegra_id ++ devid_mem.drop (file.take sizeof_tegra_id).length

/-- The three `fdt32_to_cpu` conversions of `devid` after the read. -/
def read_devid (file devid_mem : List Nat) : tegra_id :=
  let raw := fread_devid file devid_mem
  { platform_id := fdt32_to_cpu raw 0
    hardware_id := fdt32_to_cpu raw 4
    board_rev := fdt32_to_cpu raw 8 }

/-- The local variables at loop entry.  `dtb_id` and `bestmatch_tag_size` are
not initialised by the source; neither is read before it is written. -/
def tegra_choose_dtb_init : ScanState :=
  { dtb := 0
    dtb_id := ⟨0, 0, 0⟩
    bestmatch_tag := none
    bestmatch_tag_size := 0
    bestmatch_board_rev_id := INVALID_REV_ID
    yielded := [] }

/-- The call `tegra_choose_dtb(dtb_img, dtb_len, dtb_buf, dtb_length)` with
`dtb_len = dtb_img.length`.  `boardids` is the content of
`/proc/device-tree/nvidia,boardids` (`none`: `fopen` fails), `devid_mem` the
bytes the uninitialised `devid` happens to hold. -/
def tegra_choose_dtb (lib : LibFdt) (boardids : Option (List Nat)) (devid_mem : List Nat)
    (fuel : Nat) (dtb_img : List Nat) : Option ChooseResult :=
  match boardids with
  | none => some { ret := 0, dtb_buf := none, dtb_length := none, candidates := [] }
  | some file =>
    tegra_choose_dtb_loop lib (read_devid file devid_mem) dtb_img fuel tegra_choose_dtb_init

/-! ## `tegra_add_extra_regs` -/

/-- The read-write part of the accessor library used by `tegra_add_extra_regs`,
over the type `Buf` of device-tree buffers.  `fdt_delprop` and `fdt_appendprop`
yield the buffer after the call; the error code they return is discarded by the
caller. -/
structure LibFdtRw (Buf : Type) where
  fdt_path_offset : Buf → String → Int
  fdt_getprop : Buf → Int → String → Option (List Nat)
  fdt_delprop : Buf → Int → String → Buf
  fdt_appendprop : Buf → Int → String → List Nat → Buf

/-- Lines 165-166: `while (fread(&reg, sizeof(reg), 1, f) == 1)
fdt_appendprop(dtb_buf, off, "reg", &reg, sizeof(reg));` where `file` is the
unread rest of the stream.  A trailing piece shorter than a word ends the
loop. -/
def append_regs {Buf : Type} (lib : LibFdtRw Buf) (off : Int) : List Nat → Buf → Buf
  | b0 :: b1 :: b2 :: b3 :: file, dtb_buf =>
    append_regs lib off file (lib.fdt_appendprop dtb_buf off "reg" [b0, b1, b2, b3])
  | _, dtb_buf => dtb_buf

/-- The call `tegra_add_extra_regs(dtb_buf)`: the returned `int` and the buffer
after the call.  `memory_reg` is the content of
`/proc/device-tree/memory@0x80000000/reg` (`none`: `fopen` fails). -/
def tegra_add_extra_regs {Buf : Type} (lib : LibFdtRw Buf) (memory_reg : Option (List Nat))
    (dtb_buf : Buf) : Int × Buf :=
  let off := lib.fdt_path_offset dtb_buf "/memory"
  if off < 0 then (-1, dtb_buf)
  else
    match memory_reg with
    | none => (-1, dtb_buf)
    | some file => (0, append_regs lib off file (lib.fdt_delprop dtb_buf off "reg"))

/-! ## A reference accessor library and sample blobs

An instance of `LibFdt` that follows the flattened-device-tree layout (a
40-byte big-endian header `magic, totalsize, off_dt_struct, off_dt_strings,
off_mem_rsvmap, version, last_comp_version, boot_cpuid_phys, size_dt_strings,
size_dt_struct`, a structure block of `FDT_BEGIN_NODE = 1`, `FDT_END_NODE = 2`,
`FDT_PROP = 3`, `FDT_NOP = 4`, `FDT_END = 9` tokens, and a strings block), and
blobs in that format.  The general theorems hold for every `LibFdt`; they
are evaluated on this instance. -/

/-- Four big-endian bytes of a word. -/
def be32_bytes (n : Nat) : List Nat :=
  [n / 16777216 % 256, n / 65536 % 256, n / 256 % 256, n % 256]

/-- The bytes of the NUL-terminated string stored at offset `off`. -/
def cstr_at (mem : List Nat) (off : Nat) : List Nat :=
  (mem.drop off).takeWhile (fun b => b ≠ 0)

/-- Header validation of the reference library: magic `0xd00dfeed`, version at
least 2, last compatible version at most 17. -/
def ref_check_header (hdr : List Nat) : Int :=
  if fdt32_to_cpu hdr 0 ≠ 0xd00dfeed then -9
  else if fdt32_to_cpu hdr 20 < 2 then -10
  else if fdt32_to_cpu hdr 24 > 17 then -10
  else 0

/-- Walk over the property records that follow a node name in the structure
block, looking for the property called `name`. -/
def ref_find_prop (blob : List Nat) (strings : Nat) (name : List Nat) :
    Nat → Nat → Option (List Nat)
  | 0, _ => none
  | fuel + 1, cur =>
    if cur + 4 > blob.length then none
    else if fdt32_to_cpu blob cur = 4 then ref_find_prop blob strings name fuel (cur + 4)
    else if fdt32_to_cpu blob cur = 3 then
      let len := fdt32_to_cpu blob (cur + 4)
      if cur + 12 + len > blob.length then none
      else if cstr_at blob (strings + fdt32_to_cpu blob (cur + 8)) = name then
        some ((blob.drop (cur + 12)).take len)
      else ref_find_prop blob strings name fuel (cur + 12 + (len + 3) / 4 * 4)
    else none

/-- Property lookup of the reference library.  Only the declared total size of
the blob is looked at. -/
def ref_getprop (mem : List Nat) (nodeoffset : Int) (name : String) : Option (List Nat) :=
  let blob := mem.take (fdt32_to_cpu mem 4)
  if ref_check_header (blob.take 40) ≠ 0 ∨ nodeoffset < 0 then none
  else
    let node := fdt32_to_cpu blob 8 + nodeoffset.toNat
    if fdt32_to_cpu blob node ≠ 1 then none
    else
      let props := node + 4 + ((cstr_at blob (node + 4)).length + 4) / 4 * 4
      ref_find_prop blob (fdt32_to_cpu blob 12) (name.toList.map Char.toNat) blob.length props

/-- Path lookup of the reference library: only the root is resolved. -/
def ref_path_offset (mem : List Nat) (path : String) : Int :=
  let blob := mem.take (fdt32_to_cpu mem 4)
  if ref_check_header (blob.take 40) ≠ 0 then ref_check_header (blob.take 40)
  else if path = "/" then 0
  else -1

/-- The reference accessor library. -/
def ref_libfdt : LibFdt :=
  { sizeof_fdt_header := 40
    fdt_check_header := ref_check_header
    fdt_totalsize := fun hdr => fdt32_to_cpu hdr 4
    fdt_path_offset := ref_path_offset
    fdt_getprop := ref_getprop }

/-- A minimal blob: header, empty reservation map, a root node whose only
property is `nvidia,boardids = <p h r>`, and the strings block.  `cpu` fills the
`boot_cpuid_phys` header field. -/
def sample_dtb (p h r cpu : Nat) : List Nat :=
  be32_bytes 0xd00dfeed ++ be32_bytes 112 ++ be32_bytes 56 ++ be32_bytes 96 ++ be32_bytes 40
    ++ be32_bytes 17 ++ be32_bytes 16 ++ be32_bytes cpu ++ be32_bytes 16 ++ be32_bytes 40
    ++ List.replicate 16 0
    ++ be32_bytes 1 ++ be32_bytes 0 ++ be32_bytes 3 ++ be32_bytes 12 ++ be32_bytes 0
    ++ be32_bytes p ++ be32_bytes h ++ be32_bytes r ++ be32_bytes 2 ++ be32_bytes 9
    ++ "nvidia,boardids".toList.map Char.toNat ++ [0]

/-! ## Images made of concatenated entries -/

/-- A device-tree blob that can stand as an entry of a multi-DTB image: it is
longer than a header, its header passes `fdt_check_header` and declares the
length of the blob as total size, its first byte is not a padding byte, and the
accessors read nothing past its end (what follows it in memory does not change
their answers). -/
structure ValidEntry (lib : LibFdt) (e : List Nat) : Prop where
  hdr_lt : lib.sizeof_fdt_header < e.length
  check : lib.fdt_check_header (e.take lib.sizeof_fdt_header) = 0
  totalsize : lib.fdt_totalsize (e.take lib.sizeof_fdt_header) % 4294967296 = e.length
  head_ne : e.head? ≠ some 0
  reads_within : ∀ (rest : List Nat) (path : String) (nodeoffset : Int) (name : String),
    lib.fdt_path_offset (e ++ rest) path = lib.fdt_path_offset e path ∧
    lib.fdt_getprop (e ++ rest) nodeoffset name = lib.fdt_getprop e nodeoffset name

/-- The image made of the given entries in order, each followed by the given
number of zero bytes of padding. -/
def layout : List (List Nat × Nat) → List Nat
  | [] => []
  | (e, k) :: es => e ++ (List.replicate k 0 ++ layout es)

/-- The `(offset, size)` of the entries of `layout es` when the layout is placed
at offset `base`. -/
def layout_offsets : Nat → List (List Nat × Nat) → List (Nat × Nat)
  | _, [] => []
  | base, (e, k) :: es => (base, e.length) :: layout_offsets (base + e.length + k) es

/-- The blob `e` is reported by `tegra_dtb_compatible` as a match for `devid`. -/
def Compatible (lib : LibFdt) (devid : tegra_id) (e : List Nat) : Prop :=
  (tegra_dtb_compatible lib e devid ⟨0, 0, 0⟩).1 ≠ 0

instance (lib : LibFdt) (devid : tegra_id) (e : List Nat) : Decidable (Compatible lib devid e) :=
  inferInstanceAs (Decidable (_ ≠ _))

/-- The `board_rev` that `tegra_dtb_compatible` leaves in `dtb_id` for the
blob `e`. -/
def entry_rev (lib : LibFdt) (devid : tegra_id) (e : List Nat) : Nat :=
  (tegra_dtb_compatible lib e devid ⟨0, 0, 0⟩).2.board_rev

/-- Bytes at which the scan loop stops when its cursor reaches them: not more
than a header is left, or the header found there fails `fdt_check_header`, or
it declares more bytes than are left.  The bytes do not start with padding. -/
def EndsScan (lib : LibFdt) (tail : List Nat) : Prop :=
  tail.head? ≠ some 0 ∧
    (¬ lib.sizeof_fdt_header < tail.length ∨
      lib.fdt_check_header (tail.take lib.sizeof_fdt_header) ≠ 0 ∨
      tail.length < lib.fdt_totalsize (tail.take lib.sizeof_fdt_header) % 4294967296)

/-- The entry `e` is usable as an older-revision fallback for `devid`: it is
compatible and its `board_rev` is below the device's. -/
def Older (lib : LibFdt) (devid : tegra_id) (e : List Nat) : Prop :=
  Compatible lib devid e ∧ entry_rev lib devid e < devid.board_rev

/-- The entry `e` is an exact match for `devid`: it is compatible and its
`board_rev` is the device's. -/
def Exact (lib : LibFdt) (devid : tegra_id) (e : List Nat) : Prop :=
  Compatible lib devid e ∧ entry_rev lib devid e = devid.board_rev

instance (lib : LibFdt) (devid : tegra_id) (e : List Nat) : Decidable (Older lib devid e) :=
  inferInstanceAs (Decidable (_ ∧ _))

instance (lib : LibFdt) (devid : tegra_id) (e : List Nat) : Decidable (Exact lib devid e) :=
  inferInstanceAs (Decidable (_ ∧ _))

/-- What the three `bestmatch_*` variables record once the entries `done` have
been scanned: nothing and the sentinel when no entry of `done` is an older
compatible one, otherwise the position, size and revision of the first entry
of `done` that has the highest revision among the older compatible ones. -/
def BestRec (lib : LibFdt) (devid : tegra_id) (done : List (List Nat × Nat))
    (tag : Option Nat) (size rev : Nat) : Prop :=
  match tag with
  | none => rev = INVALID_REV_ID ∧ ∀ x ∈ done, ¬ Older lib devid x.1
  | some t =>
    ∃ d1 e k d2, done = d1 ++ (e, k) :: d2 ∧ t = (layout d1).length ∧ size = e.length ∧
      rev = entry_rev lib devid e ∧ Older lib devid e ∧
      (∀ x ∈ d1, Older lib devid x.1 → entry_rev lib devid x.1 < entry_rev lib devid e) ∧
      (∀ x ∈ d2, Older lib devid x.1 → entry_rev lib devid x.1 ≤ entry_rev lib devid e)

/-- The loop invariant on images made of entries: the cursor is at the end of
the scanned entries `done`, the history lists them, and the three
`bestmatch_*` variables record the best of them. -/
def ScanInv (lib : LibFdt) (devid : tegra_id) (done : List (List Nat × Nat))
    (s : ScanState) : Prop :=
  s.dtb = (layout done).length ∧ s.yielded = layout_offsets 0 done ∧
    BestRec lib devid done s.bestmatch_tag s.bestmatch_tag_size s.bestmatch_board_rev_id

/-- The content of `/proc/device-tree/nvidia,boardids` on a board of identity
`(p, h, r)`. -/
def sample_boardids (p h r : Nat) : List Nat :=
  be32_bytes p ++ be32_bytes h ++ be32_bytes r

/-- The loop invariant on arbitrary images: a recorded best match is an entry
of the scan history that lies inside the image, is compatible with the device
and has a `board_rev` below the device's. -/
def BestSound (lib : LibFdt) (devid : tegra_id) (dtb_img : List Nat) (s : ScanState) : Prop :=
  ∀ tag, s.bestmatch_tag = some tag →
    (tag, s.bestmatch_tag_size) ∈ s.yielded ∧ tag + s.bestmatch_tag_size ≤ dtb_img.length ∧
      Compatible lib devid (dtb_img.drop tag) ∧
      entry_rev lib devid (dtb_img.drop tag) < devid.board_rev

/-! ## A reference read-write library -/

/-- An abstract device-tree buffer: the offset of the `/memory` node (negative
when the node is absent) and the table of property values by node offset and
property name. -/
structure RefTree where
  memory_off : Int
  props : Int → String → Option (List Nat)

/-- The reference read-write library over `RefTree`: `fdt_delprop` removes the
property, `fdt_appendprop` appends to it, creating it when absent. -/
def ref_libfdt_rw : LibFdtRw RefTree :=
  { fdt_path_offset := fun t path =>
      if path = "/memory" then t.memory_off else if path = "/" then 0 else -1
    fdt_getprop := fun t nodeoffset name => t.props nodeoffset name
    fdt_delprop := fun t nodeoffset name =>
      { t with props := fun o n => if o = nodeoffset ∧ n = name then none else t.props o n }
    fdt_appendprop := fun t nodeoffset name val =>
      { t with
        props := fun o n =>
          if o = nodeoffset ∧ n = name then some ((t.props nodeoffset name).getD [] ++ val)
          else t.props o n } }

/-- A sample buffer: `/memory` at offset 64 with an eight-byte `reg`. -/
def sample_tree : RefTree :=
  { memory_off := 64
    props := fun o n => if o = 64 ∧ n = "reg" then some [128, 0, 0, 0, 64, 0, 0, 0] else none }

/-! ## The loop, one iteration at a time -/

/-- One iteration of the scan loop of `tegra_choose_dtb` from the state `s`:
either the call's result, when the iteration leaves the loop (guard false,
`break`, or `return 1` on an exact match; after the first two the code after
the loop runs), or the state at the start of the next iteration.  The sums are
exact, as in `tegra_choose_dtb_loop`; `scan_iter_32` has them modulo `2^32`. -/
def scan_iter (lib : LibFdt) (devid : tegra_id) (dtb_img : List Nat) (s : ScanState) :
    ChooseResult ⊕ ScanState :=
  if s.dtb + lib.sizeof_fdt_header < dtb_img.length then
    let dtb_hdr := memcpy_from dtb_img s.dtb lib.sizeof_fdt_header
    if lib.fdt_check_header dtb_hdr ≠ 0 ∨
        s.dtb + lib.fdt_totalsize dtb_hdr % 4294967296 > dtb_img.length then
      Sum.inl (tegra_choose_dtb_finish dtb_img s)
    else
      let dtb_size := lib.fdt_totalsize dtb_hdr % 4294967296
      let c := tegra_dtb_compatible lib (dtb_img.drop s.dtb) devid s.dtb_id
      let s1 : ScanState :=
        { s with dtb_id := c.2, yielded := s.yielded ++ [(s.dtb, dtb_size)] }
      if c.1 ≠ 0 then
        if c.2.board_rev = devid.board_rev then
          Sum.inl { ret := 1
                    dtb_buf := some (memcpy_from dtb_img s.dtb dtb_size)
                    dtb_length := some dtb_size
                    candidates := s1.yielded }
        else
          Sum.inr (next_dtb dtb_img dtb_size (record_bestmatch devid c.2 dtb_size s1))
      else
        Sum.inr (next_dtb dtb_img dtb_size s1)
  else Sum.inl (tegra_choose_dtb_finish dtb_img s)

/-- The states the loop of `tegra_choose_dtb` is in at the start of an
iteration (or at the loop exit, which happens from such a state): the state at
loop entry and every state an iteration hands to the next one. -/
inductive Reachable (lib : LibFdt) (devid : tegra_id) (dtb_img : List Nat) : ScanState → Prop
  | init : Reachable lib devid dtb_img tegra_choose_dtb_init
  | step {s s' : ScanState} : Reachable lib devid dtb_img s →
      scan_iter lib devid dtb_img s = Sum.inr s' → Reachable lib devid dtb_img s'

/-- A scanned entry `(offset, size)` of the history is well placed: more than a
header lies between its offset and the end of the image, its header passed
`fdt_check_header`, its size is the total size its header declares, and it
ends inside the image. -/
def YieldOk (lib : LibFdt) (dtb_img : List Nat) (c : Nat × Nat) : Prop :=
  c.1 + lib.sizeof_fdt_header < dtb_img.length ∧
    lib.fdt_check_header (memcpy_from dtb_img c.1 lib.sizeof_fdt_header) = 0 ∧
    c.2 = lib.fdt_totalsize (memcpy_from dtb_img c.1 lib.sizeof_fdt_header) % 4294967296 ∧
    c.1 + c.2 ≤ dtb_img.length

/-- The loop invariant behind the out-parameters: every entry of the history
is well placed and a recorded best match is an entry of the history. -/
def StateOk (lib : LibFdt) (dtb_img : List Nat) (s : ScanState) : Prop :=
  (∀ c ∈ s.yielded, YieldOk lib dtb_img c) ∧
    ∀ tag, s.bestmatch_tag = some tag → (tag, s.bestmatch_tag_size) ∈ s.yielded

/-- The loop invariant on the best-match variables: the tag is `NULL` exactly
when the revision is the sentinel; a recorded revision is below the device's,
is the revision of a scanned older compatible entry, and no scanned older
compatible entry has a higher one. -/
def RevInv (lib : LibFdt) (devid : tegra_id) (dtb_img : List Nat) (s : ScanState) : Prop :=
  (s.bestmatch_tag = none ↔ s.bestmatch_board_rev_id = INVALID_REV_ID) ∧
    (s.bestmatch_tag = none → ∀ c ∈ s.yielded, ¬ Older lib devid (dtb_img.drop c.1)) ∧
    ∀ tag, s.bestmatch_tag = some tag →
      s.bestmatch_board_rev_id < devid.board_rev ∧
      (tag, s.bestmatch_tag_size) ∈ s.yielded ∧
      Older lib devid (dtb_img.drop tag) ∧
      s.bestmatch_board_rev_id = entry_rev lib devid (dtb_img.drop tag) ∧
      ∀ c ∈ s.yielded, Older lib devid (dtb_img.drop c.1) →
        entry_rev lib devid (dtb_img.drop c.1) ≤ s.bestmatch_board_rev_id

/-- A blob that differs from `sample_dtb p h r 0` only in the `totalsize`
header field, which is `size`. -/
def sample_dtb_sized (p h r size : Nat) : List Nat :=
  be32_bytes 0xd00dfeed ++ be32_bytes size ++ (sample_dtb p h r 0).drop 8

/-- What the invariant `StateOk` says of a result: every entry of its history
is well placed, and either the call returned 0 and wrote no out-parameter, or
it returned 1 and wrote the copy and the size of an entry of the history. -/
def ResultOk (lib : LibFdt) (dtb_img : List Nat) (r : ChooseResult) : Prop :=
  (∀ c ∈ r.candidates, YieldOk lib dtb_img c) ∧
    ((r.ret = 0 ∧ r.dtb_buf = none ∧ r.dtb_length = none) ∨
      (r.ret = 1 ∧ ∃ c ∈ r.candidates,
        r.dtb_buf = some (memcpy_from dtb_img c.1 c.2) ∧ r.dtb_length = some c.2))

/-! ## A reference read-write library over blobs of fixed size -/

/-- An abstract device-tree buffer of fixed size: as `RefTree`, with the number
of bytes of the blob that are still free. -/
structure RefBlob where
  memory_off : Int
  props : Int → String → Option (List Nat)
  free : Nat

/-- The reference read-write library over `RefBlob`.  A property record takes
12 bytes (token, length, name offset) plus its value.  `fdt_delprop` removes
the record and gives its bytes back.  `fdt_appendprop` grows the record, or
creates it, when the free bytes allow; when they do not it leaves the blob as
it is (the call returns `-FDT_ERR_NOSPACE`, the code the caller discards). -/
def ref_libfdt_rw_sized : LibFdtRw RefBlob :=
  { fdt_path_offset := fun t path =>
      if path = "/memory" then t.memory_off else if path = "/" then 0 else -1
    fdt_getprop := fun t nodeoffset name => t.props nodeoffset name
    fdt_delprop := fun t nodeoffset name =>
      match t.props nodeoffset name with
      | none => t
      | some val =>
        { t with
          props := fun o n => if o = nodeoffset ∧ n = name then none else t.props o n
          free := t.free + 12 + val.length }
    fdt_appendprop := fun t nodeoffset name val =>
      match t.props nodeoffset name with
      | none =>
        if 12 + val.length ≤ t.free then
          { t with
            props := fun o n => if o = nodeoffset ∧ n = name then some val else t.props o n
            free := t.free - (12 + val.length) }
        else t
      | some old =>
        if val.length ≤ t.free then
          { t with
            props := fun o n =>
              if o = nodeoffset ∧ n = name then some (old ++ val) else t.props o n
            free := t.free - val.length }
        else t }

/-- A blob with no free byte, as a copy of exactly `fdt_totalsize` bytes is:
`/memory` at offset 64 with an eight-byte `reg`. -/
def tight_blob : RefBlob :=
  { memory_off := 64
    props := fun o n => if o = 64 ∧ n = "reg" then some [128, 0, 0, 0, 64, 0, 0, 0] else none
    free := 0 }

/-! ## The loop body with 32-bit pointers -/

/-- The outcome of one iteration of the scan loop on the 32-bit target: the
call's result, the state for the next iteration, or `outside dtb dtb_size`,
when the test of line 92 has let through the entry at offset `dtb` although
its declared size `dtb_size` carries it beyond the end of the image; from
there on the code works on bytes that are not the image's (`dtb_size` goes to
`xmalloc` and `memcpy`, `dtb += dtb_size` leaves the image). -/
inductive Iter32 where
  | result (r : ChooseResult)
  | next (s : ScanState)
  | outside (dtb dtb_size : Nat)
deriving DecidableEq

/-- One iteration of the scan loop of `tegra_choose_dtb` as the 32-bit target
(`kexec/arch/arm`) computes it.  `dtb_img_addr` is the value of the pointer
`dtb_img`, so the cursor is the address `dtb_img_addr + s.dtb` and `dtb_end`
the address `dtb_img_addr + dtb_img.length`; the sum of a `char *` and an
integer is taken modulo `2^32`, in `dtb + sizeof(struct fdt_header)` (line 82)
and in `dtb + fdt_totalsize(&dtb_hdr)` (line 92).  The rest of the body is that
of `scan_iter`. -/
def scan_iter_32 (lib : LibFdt) (devid : tegra_id) (dtb_img_addr : Nat) (dtb_img : List Nat)
    (s : ScanState) : Iter32 :=
  if (dtb_img_addr + s.dtb + lib.sizeof_fdt_header) % 4294967296
      < dtb_img_addr + dtb_img.length then
    let dtb_hdr := memcpy_from dtb_img s.dtb lib.sizeof_fdt_header
    if lib.fdt_check_header dtb_hdr ≠ 0 ∨
        (dtb_img_addr + s.dtb + lib.fdt_totalsize dtb_hdr % 4294967296) % 4294967296
          > dtb_img_addr + dtb_img.length then
      Iter32.result (tegra_choose_dtb_finish dtb_img s)
    else
      let dtb_size := lib.fdt_totalsize dtb_hdr % 4294967296
      if dtb_img.length < s.dtb + dtb_size then Iter32.outside s.dtb dtb_size
      else
        let c := tegra_dtb_compatible lib (dtb_img.drop s.dtb) devid s.dtb_id
        let s1 : ScanState :=
          { s with dtb_id := c.2, yielded := s.yielded ++ [(s.dtb, dtb_size)] }
        if c.1 ≠ 0 then
          if c.2.board_rev = devid.board_rev then
            Iter32.result { ret := 1
                            dtb_buf := some (memcpy_from dtb_img s.dtb dtb_size)
                            dtb_length := some dtb_size
                            candidates := s1.yielded }
          else
            Iter32.next (next_dtb dtb_img dtb_size (record_bestmatch devid c.2 dtb_size s1))
        else
          Iter32.next (next_dtb dtb_img dtb_size s1)
  else Iter32.result (tegra_choose_dtb_finish dtb_img s)

/-! # Theorems -/

/-! ## Basic facts -/

theorem fdt32_to_cpu_lt (mem : List Nat) (off : Nat) : fdt32_to_cpu mem off < 4294967296 := by
  unfold fdt32_to_cpu
  omega

theorem tegra_dtb_compatible_fst (lib : LibFdt) (dtb : List Nat) (devid d d' : tegra_id) :
    (tegra_dtb_compatible lib dtb devid d).1 = (tegra_dtb_compatible lib dtb devid d').1 := by
  unfold tegra_dtb_compatible
  simp only
  split
  · rfl
  · split
    · rfl
    · split
      · rfl
      · split
        · rfl
        · split <;> rfl

theorem tegra_dtb_compatible_snd (lib : LibFdt) (dtb : List Nat) (devid d d' : tegra_id)
    (h : (tegra_dtb_compatible lib dtb devid d).1 ≠ 0) :
    (tegra_dtb_compatible lib dtb devid d).2 = (tegra_dtb_compatible lib dtb devid d').2 := by
  unfold tegra_dtb_compatible at h ⊢
  simp only at h ⊢
  split
  · simp_all
  · split
    · simp_all
    · split
      · simp_all
      · split
        · simp_all
        · split <;> rfl

theorem tegra_dtb_compatible_ids (lib : LibFdt) (dtb : List Nat) (devid d : tegra_id)
    (h : (tegra_dtb_compatible lib dtb devid d).1 ≠ 0) :
    (tegra_dtb_compatible lib dtb devid d).1 = 1 ∧
    (tegra_dtb_compatible lib dtb devid d).2.platform_id = devid.platform_id ∧
    (tegra_dtb_compatible lib dtb devid d).2.hardware_id = devid.hardware_id ∧
    (tegra_dtb_compatible lib dtb devid d).2.board_rev < 4294967296 := by
  unfold tegra_dtb_compatible at h ⊢
  simp only at h ⊢
  split
  · simp_all
  · split
    · simp_all
    · split
      · simp_all
      · split
        · simp_all
        · split
          · simp_all
          · rename_i hne
            simp only [not_or, not_not] at hne
            exact ⟨rfl, hne.1, hne.2, fdt32_to_cpu_lt _ _⟩

theorem tegra_dtb_compatible_append (lib : LibFdt) (e rest : List Nat) (devid d : tegra_id)
    (hv : ValidEntry lib e) :
    tegra_dtb_compatible lib (e ++ rest) devid d = tegra_dtb_compatible lib e devid d := by
  have h1 := (hv.reads_within rest "/" 0 "").1
  have h2 := fun off => (hv.reads_within rest "/" off "nvidia,boardids").2
  unfold tegra_dtb_compatible
  simp only [h1, h2]

theorem skip_padding_replicate (k : Nat) (rest : List Nat) (n : Nat)
    (h : rest.head? ≠ some 0) :
    skip_padding (List.replicate k 0 ++ rest) n = n + k := by
  induction k generalizing n with
  | zero =>
    cases rest with
    | nil => simp [skip_padding]
    | cons b t =>
      have hb : b ≠ 0 := by simpa using h
      simp [skip_padding, hb]
  | succ k ih =>
    have := ih (n + 1)
    show skip_padding (0 :: (List.replicate k 0 ++ rest)) n = n + (k + 1)
    simp only [skip_padding, if_true]
    omega

theorem memcpy_from_entry (pre e rest : List Nat) (n : Nat) (h : n ≤ e.length) :
    memcpy_from (pre ++ (e ++ rest)) pre.length n = e.take n := by
  unfold memcpy_from
  rw [List.drop_left, List.take_append_of_le_length h]

theorem layout_append (es es' : List (List Nat × Nat)) :
    layout (es ++ es') = layout es ++ layout es' := by
  induction es with
  | nil => rfl
  | cons x es ih =>
    obtain ⟨e, k⟩ := x
    simp [layout, ih]

theorem layout_offsets_append (base : Nat) (es es' : List (List Nat × Nat)) :
    layout_offsets base (es ++ es') =
      layout_offsets base es ++ layout_offsets (base + (layout es).length) es' := by
  induction es generalizing base with
  | nil => simp [layout_offsets, layout]
  | cons x es ih =>
    obtain ⟨e, k⟩ := x
    have : base + e.length + k + (layout es).length
        = base + (e.length + (k + (layout es).length)) := by omega
    show (base, e.length) :: layout_offsets (base + e.length + k) (es ++ es') = _
    simp only [layout_offsets, layout, ih, List.length_append, List.length_replicate, this,
      List.cons_append]

/-! ## One loop iteration at a valid entry -/

theorem record_bestmatch_dtb (devid dtb_id : tegra_id) (dtb_size : Nat) (s : ScanState) :
    (record_bestmatch devid dtb_id dtb_size s).dtb = s.dtb := by
  unfold record_bestmatch
  split
  · split <;> rfl
  · rfl

theorem next_dtb_padding (pre e rest : List Nat) (k : Nat) (t : ScanState)
    (ht : t.dtb = pre.length) (hrest : rest.head? ≠ some 0) :
    next_dtb (pre ++ (e ++ (List.replicate k 0 ++ rest))) e.length t =
      { t with dtb := pre.length + e.length + k } := by
  unfold next_dtb
  have h : List.drop (t.dtb + e.length) (pre ++ (e ++ (List.replicate k 0 ++ rest)))
      = List.replicate k 0 ++ rest := by
    rw [ht, ← List.append_assoc, ← List.length_append, List.drop_left]
  rw [h, skip_padding_replicate k rest _ hrest, ht]

theorem loop_at_entry (lib : LibFdt) (devid : tegra_id) (pre e rest : List Nat)
    (s : ScanState) (fuel : Nat) (hs : s.dtb = pre.length) (hv : ValidEntry lib e) :
    tegra_choose_dtb_loop lib devid (pre ++ (e ++ rest)) (fuel + 1) s =
      if (tegra_dtb_compatible lib e devid s.dtb_id).1 ≠ 0 then
        if (tegra_dtb_compatible lib e devid s.dtb_id).2.board_rev = devid.board_rev then
          some { ret := 1
                 dtb_buf := some e
                 dtb_length := some e.length
                 candidates := s.yielded ++ [(pre.length, e.length)] }
        else
          tegra_choose_dtb_loop lib devid (pre ++ (e ++ rest)) fuel
            (next_dtb (pre ++ (e ++ rest)) e.length
              (record_bestmatch devid (tegra_dtb_compatible lib e devid s.dtb_id).2 e.length
                { s with
                  dtb_id := (tegra_dtb_compatible lib e devid s.dtb_id).2
                  yielded := s.yielded ++ [(pre.length, e.length)] }))
      else
        tegra_choose_dtb_loop lib devid (pre ++ (e ++ rest)) fuel
          (next_dtb (pre ++ (e ++ rest)) e.length
            { s with
              dtb_id := (tegra_dtb_compatible lib e devid s.dtb_id).2
              yielded := s.yielded ++ [(pre.length, e.length)] }) := by
  have hlen : (pre ++ (e ++ rest)).length = pre.length + (e.length + rest.length) := by
    simp
  have hhdr : memcpy_from (pre ++ (e ++ rest)) pre.length lib.sizeof_fdt_header
      = e.take lib.sizeof_fdt_header :=
    memcpy_from_entry pre e rest _ (Nat.le_of_lt hv.hdr_lt)
  have hcopy : memcpy_from (pre ++ (e ++ rest)) pre.length e.length = e := by
    rw [memcpy_from_entry pre e rest _ (Nat.le_refl _), List.take_length]
  have hdrop : List.drop pre.length (pre ++ (e ++ rest)) = e ++ rest := List.drop_left _ _
  have hc1 : pre.length + lib.sizeof_fdt_header < (pre ++ (e ++ rest)).length := by
    have := hv.hdr_lt
    rw [hlen]; omega
  have hc2 : ¬ (lib.fdt_check_header (e.take lib.sizeof_fdt_header) ≠ 0 ∨
      pre.length + e.length > (pre ++ (e ++ rest)).length) := by
    rw [hlen, hv.check]
    simp
  rw [tegra_choose_dtb_loop]
  simp only [hs, hc1, if_true, hhdr, hv.totalsize, hc2, if_false, hdrop,
    tegra_dtb_compatible_append lib e rest devid s.dtb_id hv, hcopy]

/-! ## The loop invariant over an image made of entries -/

theorem bestRec_skip (lib : LibFdt) (devid : tegra_id) (done : List (List Nat × Nat))
    (e : List Nat) (k : Nat) (tag : Option Nat) (size rev : Nat)
    (h : BestRec lib devid done tag size rev) (hno : ¬ Older lib devid e) :
    BestRec lib devid (done ++ [(e, k)]) tag size rev := by
  cases tag with
  | none =>
    obtain ⟨h1, h2⟩ := h
    refine ⟨h1, ?_⟩
    intro x hx
    rcases List.mem_append.1 hx with hx | hx
    · exact h2 x hx
    · rw [List.mem_singleton.1 hx]; exact hno
  | some t =>
    obtain ⟨d1, e0, k0, d2, hd, ht, hsz, hrev, hold, hlt, hle⟩ := h
    refine ⟨d1, e0, k0, d2 ++ [(e, k)], by simp [hd], ht, hsz, hrev, hold, hlt, ?_⟩
    intro x hx hox
    rcases List.mem_append.1 hx with hx | hx
    · exact hle x hx hox
    · rw [List.mem_singleton.1 hx] at hox; exact absurd hox hno

theorem bestRec_record (lib : LibFdt) (devid dtb_id : tegra_id)
    (done : List (List Nat × Nat)) (e : List Nat) (k : Nat) (s : ScanState)
    (hdev : devid.board_rev < 4294967296)
    (hdtb : s.dtb = (layout done).length)
    (h : BestRec lib devid done s.bestmatch_tag s.bestmatch_tag_size s.bestmatch_board_rev_id)
    (hc : Compatible lib devid e) (hid : dtb_id.board_rev = entry_rev lib devid e) :
    BestRec lib devid (done ++ [(e, k)])
      (record_bestmatch devid dtb_id e.length s).bestmatch_tag
      (record_bestmatch devid dtb_id e.length s).bestmatch_tag_size
      (record_bestmatch devid dtb_id e.length s).bestmatch_board_rev_id := by
  unfold record_bestmatch
  by_cases hlt : dtb_id.board_rev < devid.board_rev
  · have hold : Older lib devid e := ⟨hc, hid ▸ hlt⟩
    rw [if_pos hlt]
    by_cases hupd : s.bestmatch_board_rev_id = INVALID_REV_ID ∨
        s.bestmatch_board_rev_id < dtb_id.board_rev
    · rw [if_pos hupd]
      refine ⟨done, e, k, [], rfl, hdtb, rfl, hid, hold, ?_, by simp⟩
      intro x hx hox
      cases htag : s.bestmatch_tag with
      | none =>
        rw [htag] at h
        exact absurd hox (h.2 x hx)
      | some t =>
        rw [htag] at h
        obtain ⟨d1, e0, k0, d2, hd, _, _, hrev, hold0, hl, hle⟩ := h
        have h0 : entry_rev lib devid e0 < entry_rev lib devid e := by
          rcases hupd with hu | hu
          · have := hold0.2
            rw [hrev] at hu
            unfold INVALID_REV_ID at hu
            omega
          · rw [hrev, hid] at hu; exact hu
        rw [hd] at hx
        rcases List.mem_append.1 hx with hx | hx
        · exact Nat.lt_trans (hl x hx hox) h0
        · rcases List.mem_cons.1 hx with hx | hx
          · rw [hx]; exact h0
          · exact Nat.lt_of_le_of_lt (hle x hx hox) h0
    · rw [if_neg hupd]
      cases htag : s.bestmatch_tag with
      | none =>
        rw [htag] at h
        exact absurd (Or.inl h.1) hupd
      | some t =>
        rw [htag] at h
        obtain ⟨d1, e0, k0, d2, hd, ht, hsz, hrev, hold0, hl, hle⟩ := h
        refine ⟨d1, e0, k0, d2 ++ [(e, k)], by simp [hd], ht, hsz, hrev, hold0, hl, ?_⟩
        intro x hx hox
        rcases List.mem_append.1 hx with hx | hx
        · exact hle x hx hox
        · rw [List.mem_singleton.1 hx]
          have : ¬ s.bestmatch_board_rev_id < dtb_id.board_rev := fun hh => hupd (Or.inr hh)
          rw [hrev, hid] at this
          exact Nat.le_of_not_lt this
  · rw [if_neg hlt]
    exact bestRec_skip lib devid done e k _ _ _ h (fun ho => hlt (hid ▸ ho.2))

theorem layout_head_ne (lib : LibFdt) (es : List (List Nat × Nat)) (tail : List Nat)
    (hv : ∀ x ∈ es, ValidEntry lib x.1) (htail : tail.head? ≠ some 0) :
    (layout es ++ tail).head? ≠ some 0 := by
  cases es with
  | nil => simpa [layout] using htail
  | cons x es =>
    obtain ⟨e, k⟩ := x
    have he := hv (e, k) (List.mem_cons_self _ _)
    cases e with
    | nil => exact absurd he.hdr_lt (by simp)
    | cons b t =>
      have := he.head_ne
      simpa [layout] using this

theorem record_bestmatch_yielded (devid dtb_id : tegra_id) (dtb_size : Nat) (s : ScanState) :
    (record_bestmatch devid dtb_id dtb_size s).yielded = s.yielded := by
  unfold record_bestmatch
  split
  · split <;> rfl
  · rfl

theorem layout_snoc_append (done : List (List Nat × Nat)) (e : List Nat) (k : Nat)
    (rest : List Nat) :
    layout (done ++ [(e, k)]) ++ rest = layout done ++ (e ++ (List.replicate k 0 ++ rest)) := by
  simp [layout_append, layout]

theorem layout_offsets_snoc (done : List (List Nat × Nat)) (e : List Nat) (k : Nat) :
    layout_offsets 0 (done ++ [(e, k)])
      = layout_offsets 0 done ++ [((layout done).length, e.length)] := by
  simp [layout_offsets_append, layout_offsets]

theorem layout_length_snoc (done : List (List Nat × Nat)) (e : List Nat) (k : Nat) :
    (layout (done ++ [(e, k)])).length = (layout done).length + e.length + k := by
  simp [layout_append, layout]
  omega

/-- Scanning through entries none of which is an exact match: the loop uses one
iteration per entry and arrives, with the invariant, at the bytes after them. -/
theorem loop_scan_entries (lib : LibFdt) (devid : tegra_id)
    (hdev : devid.board_rev < 4294967296) (tail : List Nat) (htail : tail.head? ≠ some 0) :
    ∀ (es done : List (List Nat × Nat)) (s : ScanState),
      (∀ x ∈ es, ValidEntry lib x.1) → (∀ x ∈ es, ¬ Exact lib devid x.1) →
      ScanInv lib devid done s →
      ∃ s', ScanInv lib devid (done ++ es) s' ∧
        ∀ fuel, tegra_choose_dtb_loop lib devid (layout done ++ (layout es ++ tail))
            (es.length + fuel) s
          = tegra_choose_dtb_loop lib devid (layout done ++ (layout es ++ tail)) fuel s' := by
  intro es
  induction es with
  | nil =>
    intro done s _ _ hinv
    exact ⟨s, by simpa using hinv, fun fuel => by simp⟩
  | cons x es ih =>
    obtain ⟨e, k⟩ := x
    intro done s hv hne hinv
    obtain ⟨hdtb, hyld, hbest⟩ := hinv
    have he : ValidEntry lib e := hv (e, k) (List.mem_cons_self _ _)
    have hv' : ∀ x ∈ es, ValidEntry lib x.1 := fun x hx => hv x (List.mem_cons_of_mem _ hx)
    have hne' : ∀ x ∈ es, ¬ Exact lib devid x.1 := fun x hx => hne x (List.mem_cons_of_mem _ hx)
    have hnex : ¬ Exact lib devid e := hne (e, k) (List.mem_cons_self _ _)
    have hrest : (layout es ++ tail).head? ≠ some 0 := layout_head_ne lib es tail hv' htail
    have himg : layout done ++ (layout ((e, k) :: es) ++ tail)
        = layout done ++ (e ++ (List.replicate k 0 ++ (layout es ++ tail))) := by
      simp [layout]
    have himg' : layout (done ++ [(e, k)]) ++ (layout es ++ tail)
        = layout done ++ (e ++ (List.replicate k 0 ++ (layout es ++ tail))) :=
      layout_snoc_append done e k _
    have hfst := tegra_dtb_compatible_fst lib e devid s.dtb_id ⟨0, 0, 0⟩
    by_cases hc : (tegra_dtb_compatible lib e devid s.dtb_id).1 ≠ 0
    · have hcomp : Compatible lib devid e := by
        unfold Compatible; rw [← hfst]; exact hc
      have hsnd := tegra_dtb_compatible_snd lib e devid s.dtb_id ⟨0, 0, 0⟩ hc
      have hid : (tegra_dtb_compatible lib e devid s.dtb_id).2.board_rev
          = entry_rev lib devid e := by
        unfold entry_rev; rw [hsnd]
      have hnx : ¬ (tegra_dtb_compatible lib e devid s.dtb_id).2.board_rev = devid.board_rev :=
        fun h => hnex ⟨hcomp, hid ▸ h⟩
      obtain ⟨s', hinv', hrun⟩ := ih (done ++ [(e, k)])
        { record_bestmatch devid (tegra_dtb_compatible lib e devid s.dtb_id).2 e.length
            { s with
              dtb_id := (tegra_dtb_compatible lib e devid s.dtb_id).2
              yielded := s.yielded ++ [((layout done).length, e.length)] } with
          dtb := (layout done).length + e.length + k } hv' hne'
        ⟨(layout_length_snoc done e k).symm, by
          show (record_bestmatch _ _ _ _).yielded = _
          rw [record_bestmatch_yielded, layout_offsets_snoc, ← hyld],
          bestRec_record lib devid _ done e k _ hdev hdtb hbest hcomp hid⟩
      refine ⟨s', by simpa using hinv', fun fuel => ?_⟩
      have hf : ((e, k) :: es).length + fuel = (es.length + fuel) + 1 := by
        simp only [List.length_cons]; omega
      rw [himg, hf, loop_at_entry lib devid _ e _ s _ hdtb he, if_pos hc, if_neg hnx,
        next_dtb_padding _ e _ k _ (by rw [record_bestmatch_dtb]; exact hdtb) hrest,
        ← himg']
      exact hrun fuel
    · have hnold : ¬ Older lib devid e := by
        intro ho
        apply hc
        have := ho.1
        unfold Compatible at this
        rw [hfst]; exact this
      obtain ⟨s', hinv', hrun⟩ := ih (done ++ [(e, k)])
        { s with
          dtb_id := (tegra_dtb_compatible lib e devid s.dtb_id).2
          yielded := s.yielded ++ [((layout done).length, e.length)]
          dtb := (layout done).length + e.length + k } hv' hne'
        ⟨(layout_length_snoc done e k).symm, by
          show s.yielded ++ _ = _
          rw [layout_offsets_snoc, ← hyld],
          bestRec_skip lib devid done e k _ _ _ hbest hnold⟩
      refine ⟨s', by simpa using hinv', fun fuel => ?_⟩
      have hf : ((e, k) :: es).length + fuel = (es.length + fuel) + 1 := by
        simp only [List.length_cons]; omega
      rw [himg, hf, loop_at_entry lib devid _ e _ s _ hdtb he, if_neg hc,
        next_dtb_padding _ e _ k
          { s with
            dtb_id := (tegra_dtb_compatible lib e devid s.dtb_id).2
            yielded := s.yielded ++ [((layout done).length, e.length)] } hdtb hrest, ← himg']
      exact hrun fuel

theorem scanInv_init (lib : LibFdt) (devid : tegra_id) :
    ScanInv lib devid [] tegra_choose_dtb_init :=
  ⟨rfl, rfl, rfl, fun _ hx => absurd hx (List.not_mem_nil _)⟩

theorem read_devid_rev_lt (file devid_mem : List Nat) :
    (read_devid file devid_mem).board_rev < 4294967296 :=
  fdt32_to_cpu_lt _ _

theorem loop_at_end (lib : LibFdt) (devid : tegra_id) (pre tail : List Nat) (s : ScanState)
    (fuel : Nat) (hs : s.dtb = pre.length)
    (h : ¬ lib.sizeof_fdt_header < tail.length ∨
      lib.fdt_check_header (tail.take lib.sizeof_fdt_header) ≠ 0 ∨
      tail.length < lib.fdt_totalsize (tail.take lib.sizeof_fdt_header) % 4294967296) :
    tegra_choose_dtb_loop lib devid (pre ++ tail) (fuel + 1) s
      = some (tegra_choose_dtb_finish (pre ++ tail) s) := by
  have hhdr : memcpy_from (pre ++ tail) pre.length lib.sizeof_fdt_header
      = tail.take lib.sizeof_fdt_header := by
    unfold memcpy_from; rw [List.drop_left]
  rw [tegra_choose_dtb_loop]
  simp only [hs, hhdr, List.length_append]
  by_cases h1 : pre.length + lib.sizeof_fdt_header < pre.length + tail.length
  · rw [if_pos h1]
    have h2 : lib.fdt_check_header (tail.take lib.sizeof_fdt_header) ≠ 0 ∨
        pre.length + lib.fdt_totalsize (tail.take lib.sizeof_fdt_header) % 4294967296
          > pre.length + tail.length := by
      rcases h with h | h | h
      · exact absurd (by omega) h
      · exact Or.inl h
      · exact Or.inr (by omega)
    rw [if_pos h2]
  · rw [if_neg h1]

/-- What the code after the loop returns once the invariant holds for all the
entries of the image. -/
theorem finish_of_scanInv (lib : LibFdt) (devid : tegra_id) (es : List (List Nat × Nat))
    (tail : List Nat) (s : ScanState) (hinv : ScanInv lib devid es s) :
    (tegra_choose_dtb_finish (layout es ++ tail) s).candidates = layout_offsets 0 es ∧
    (((tegra_choose_dtb_finish (layout es ++ tail) s).ret = 0 ∧
        (tegra_choose_dtb_finish (layout es ++ tail) s).dtb_buf = none ∧
        (tegra_choose_dtb_finish (layout es ++ tail) s).dtb_length = none ∧
        ∀ x ∈ es, ¬ Older lib devid x.1) ∨
      ∃ d1 e k d2, es = d1 ++ (e, k) :: d2 ∧ Older lib devid e ∧
        (∀ x ∈ d1, Older lib devid x.1 → entry_rev lib devid x.1 < entry_rev lib devid e) ∧
        (∀ x ∈ d2, Older lib devid x.1 → entry_rev lib devid x.1 ≤ entry_rev lib devid e) ∧
        (tegra_choose_dtb_finish (layout es ++ tail) s).ret = 1 ∧
        (tegra_choose_dtb_finish (layout es ++ tail) s).dtb_buf = some e ∧
        (tegra_choose_dtb_finish (layout es ++ tail) s).dtb_length = some e.length) := by
  obtain ⟨_, hyld, hbest⟩ := hinv
  unfold tegra_choose_dtb_finish
  cases htag : s.bestmatch_tag with
  | none =>
    rw [htag] at hbest
    exact ⟨hyld, Or.inl ⟨rfl, rfl, rfl, hbest.2⟩⟩
  | some t =>
    rw [htag] at hbest
    obtain ⟨d1, e, k, d2, hd, ht, hsz, _, hold, hl, hle⟩ := hbest
    refine ⟨hyld, Or.inr ⟨d1, e, k, d2, hd, hold, hl, hle, rfl, ?_, by simp [hsz]⟩⟩
    have himg : layout es ++ tail
        = layout d1 ++ (e ++ (List.replicate k 0 ++ layout d2 ++ tail)) := by
      rw [hd]; simp [layout_append, layout]
    simp only [hsz, ht, himg]
    rw [memcpy_from_entry _ e _ _ (Nat.le_refl _), List.take_length]

/-- An image made of valid entries, none an exact match, followed by bytes
that end the scan: the loop returns what the code after it makes of a state that
satisfies the invariant for all the entries. -/
theorem loop_no_exact (lib : LibFdt) (devid : tegra_id) (hdev : devid.board_rev < 4294967296)
    (es : List (List Nat × Nat)) (tail : List Nat)
    (hv : ∀ x ∈ es, ValidEntry lib x.1) (hne : ∀ x ∈ es, ¬ Exact lib devid x.1)
    (htail : EndsScan lib tail) :
    ∃ s, ScanInv lib devid es s ∧
      ∀ fuel, es.length < fuel →
        tegra_choose_dtb_loop lib devid (layout es ++ tail) fuel tegra_choose_dtb_init
          = some (tegra_choose_dtb_finish (layout es ++ tail) s) := by
  obtain ⟨s, hinv, hrun⟩ := loop_scan_entries lib devid hdev tail htail.1 es []
    tegra_choose_dtb_init hv hne (scanInv_init lib devid)
  simp only [layout, List.nil_append] at hinv hrun
  refine ⟨s, hinv, fun fuel hf => ?_⟩
  obtain ⟨n, rfl⟩ : ∃ n, fuel = es.length + (n + 1) := ⟨fuel - es.length - 1, by omega⟩
  rw [hrun (n + 1)]
  exact loop_at_end lib devid (layout es) tail s n hinv.1 htail.2

/-- An image with valid entries, none an exact match, before a valid entry that
is one: the loop returns a copy of that entry. -/
theorem loop_first_exact (lib : LibFdt) (devid : tegra_id) (hdev : devid.board_rev < 4294967296)
    (pre : List (List Nat × Nat)) (e rest : List Nat)
    (hv : ∀ x ∈ pre, ValidEntry lib x.1) (hne : ∀ x ∈ pre, ¬ Exact lib devid x.1)
    (he : ValidEntry lib e) (hex : Exact lib devid e) (fuel : Nat) (hf : pre.length < fuel) :
    tegra_choose_dtb_loop lib devid (layout pre ++ (e ++ rest)) fuel tegra_choose_dtb_init
      = some { ret := 1
               dtb_buf := some e
               dtb_length := some e.length
               candidates := layout_offsets 0 pre ++ [((layout pre).length, e.length)] } := by
  have hhead : (e ++ rest).head? ≠ some 0 := by
    cases e with
    | nil => exact absurd he.hdr_lt (by simp)
    | cons b t => simpa using he.head_ne
  obtain ⟨s, hinv, hrun⟩ := loop_scan_entries lib devid hdev (e ++ rest) hhead pre []
    tegra_choose_dtb_init hv hne (scanInv_init lib devid)
  simp only [layout, List.nil_append] at hinv hrun
  obtain ⟨n, rfl⟩ : ∃ n, fuel = pre.length + (n + 1) := ⟨fuel - pre.length - 1, by omega⟩
  have hfst := tegra_dtb_compatible_fst lib e devid s.dtb_id ⟨0, 0, 0⟩
  have hc : (tegra_dtb_compatible lib e devid s.dtb_id).1 ≠ 0 := by
    rw [hfst]; exact hex.1
  have hrev : (tegra_dtb_compatible lib e devid s.dtb_id).2.board_rev = devid.board_rev := by
    rw [tegra_dtb_compatible_snd lib e devid s.dtb_id ⟨0, 0, 0⟩ hc]; exact hex.2
  rw [hrun (n + 1), loop_at_entry lib devid _ e rest s n hinv.1 he, if_pos hc, if_pos hrev,
    hinv.2.1]

/-! ## The reference library -/

theorem fdt32_to_cpu_append (e rest : List Nat) (off : Nat) (h : off + 4 ≤ e.length) :
    fdt32_to_cpu (e ++ rest) off = fdt32_to_cpu e off := by
  unfold fdt32_to_cpu
  rw [List.getD_append _ _ _ _ (by omega), List.getD_append _ _ _ _ (by omega),
    List.getD_append _ _ _ _ (by omega), List.getD_append _ _ _ _ (by omega)]

/-- The decidable conditions under which a blob is a valid entry for the
reference library. -/
theorem ref_validEntry (e : List Nat) (h1 : 40 < e.length)
    (h2 : ref_check_header (e.take 40) = 0)
    (h3 : fdt32_to_cpu (e.take 40) 4 % 4294967296 = e.length)
    (h4 : fdt32_to_cpu e 4 = e.length) (h5 : e.head? ≠ some 0) :
    ValidEntry ref_libfdt e where
  hdr_lt := h1
  check := h2
  totalsize := h3
  head_ne := h5
  reads_within := by
    intro rest path nodeoffset name
    have hsz : fdt32_to_cpu (e ++ rest) 4 = e.length := by
      rw [fdt32_to_cpu_append e rest 4 (by omega), h4]
    have ht : List.take (fdt32_to_cpu (e ++ rest) 4) (e ++ rest)
        = List.take (fdt32_to_cpu e 4) e := by
      rw [hsz, h4, List.take_left, List.take_length]
    constructor
    · show ref_path_offset (e ++ rest) path = ref_path_offset e path
      unfold ref_path_offset
      simp only [ht]
    · show ref_getprop (e ++ rest) nodeoffset name = ref_getprop e nodeoffset name
      unfold ref_getprop
      simp only [ht]

theorem endsScan_nil (lib : LibFdt) : EndsScan lib [] :=
  ⟨by simp, Or.inl (by simp)⟩

theorem tegra_choose_dtb_some (lib : LibFdt) (file devid_mem : List Nat) (fuel : Nat)
    (dtb_img : List Nat) :
    tegra_choose_dtb lib (some file) devid_mem fuel dtb_img
      = tegra_choose_dtb_loop lib (read_devid file devid_mem) dtb_img fuel
          tegra_choose_dtb_init := rfl

set_option maxRecDepth 100000 in
theorem sample_dtb_valid_732 : ValidEntry ref_libfdt (sample_dtb 7 3 2 0) :=
  ref_validEntry _ (by decide) (by decide) (by decide) (by decide) (by decide)

set_option maxRecDepth 100000 in
theorem sample_dtb_valid_733 : ValidEntry ref_libfdt (sample_dtb 7 3 3 0) :=
  ref_validEntry _ (by decide) (by decide) (by decide) (by decide) (by decide)

set_option maxRecDepth 100000 in
theorem sample_dtb_valid_734 : ValidEntry ref_libfdt (sample_dtb 7 3 4 0) :=
  ref_validEntry _ (by decide) (by decide) (by decide) (by decide) (by decide)

set_option maxRecDepth 100000 in
theorem sample_dtb_valid_735 : ValidEntry ref_libfdt (sample_dtb 7 3 5 0) :=
  ref_validEntry _ (by decide) (by decide) (by decide) (by decide) (by decide)

set_option maxRecDepth 100000 in
theorem sample_dtb_valid_735b : ValidEntry ref_libfdt (sample_dtb 7 3 5 1) :=
  ref_validEntry _ (by decide) (by decide) (by decide) (by decide) (by decide)

/-- C1 (amended): when the image starts with valid entries none of which is an
exact match, each followed by any amount of zero padding, and continues with a
valid entry `e` whose decoded `nvidia,boardids` triple equals the device
triple, `tegra_choose_dtb` returns 1, the output buffer is `e` byte for byte
and the output length is the total size declared by `e`; what follows `e` in
the image is irrelevant.  (The entry returned is the first exact match in scan
order.) -/
theorem choose_dtb_first_exact_match (lib : LibFdt) (file devid_mem : List Nat)
    (pre : List (List Nat × Nat)) (e rest : List Nat) (fuel : Nat)
    (hpre : ∀ x ∈ pre, ValidEntry lib x.1 ∧ ¬ Exact lib (read_devid file devid_mem) x.1)
    (he : ValidEntry lib e)
    (hex : tegra_dtb_compatible lib e (read_devid file devid_mem) ⟨0, 0, 0⟩
      = (1, read_devid file devid_mem))
    (hf : pre.length < fuel) :
    ∃ r, tegra_choose_dtb lib (some file) devid_mem fuel (layout pre ++ (e ++ rest)) = some r ∧
      r.ret = 1 ∧ r.dtb_buf = some e ∧
      r.dtb_length = some (lib.fdt_totalsize (e.take lib.sizeof_fdt_header) % 4294967296) := by
  have hexact : Exact lib (read_devid file devid_mem) e := by
    unfold Exact Compatible entry_rev
    rw [hex]
    exact ⟨Nat.one_ne_zero, rfl⟩
  have hrun := loop_first_exact lib _ (read_devid_rev_lt file devid_mem) pre e rest
    (fun x hx => (hpre x hx).1) (fun x hx => (hpre x hx).2) he hexact fuel hf
  rw [← tegra_choose_dtb_some] at hrun
  exact ⟨_, hrun, rfl, rfl, by simp only [he.totalsize]⟩

set_option maxRecDepth 100000 in
/-- Witness for C1: device `(7,3,5)`, image entries `(7,3,4)`, `(7,3,5)`,
`(7,3,2)`; the `(7,3,5)` entry is returned verbatim. -/
theorem choose_dtb_first_exact_match_witness :
    ∃ r, tegra_choose_dtb ref_libfdt (some (sample_boardids 7 3 5)) [] 2
        (layout [(sample_dtb 7 3 4 0, 0)] ++ (sample_dtb 7 3 5 0 ++ sample_dtb 7 3 2 0)) = some r ∧
      r.ret = 1 ∧ r.dtb_buf = some (sample_dtb 7 3 5 0) ∧
      r.dtb_length = some (ref_libfdt.fdt_totalsize
        ((sample_dtb 7 3 5 0).take ref_libfdt.sizeof_fdt_header) % 4294967296) :=
  choose_dtb_first_exact_match ref_libfdt (sample_boardids 7 3 5) []
    [(sample_dtb 7 3 4 0, 0)] (sample_dtb 7 3 5 0) (sample_dtb 7 3 2 0) 2
    (by
      intro x hx
      rw [List.mem_singleton.1 hx]
      exact ⟨sample_dtb_valid_734, by decide⟩)
    sample_dtb_valid_735 (by decide) (by decide)

set_option maxRecDepth 100000 in
/-- Counterexample to C1 as stated: device `(7,3,5)`, image made of two valid
entries that both decode to `(7,3,5)` and differ in one header byte.  The
image contains the second entry, yet the call returns the first one. -/
theorem choose_dtb_exact_match_counterexample :
    ValidEntry ref_libfdt (sample_dtb 7 3 5 0) ∧ ValidEntry ref_libfdt (sample_dtb 7 3 5 1) ∧
    read_devid (sample_boardids 7 3 5) [] = ⟨7, 3, 5⟩ ∧
    tegra_dtb_compatible ref_libfdt (sample_dtb 7 3 5 1) ⟨7, 3, 5⟩ ⟨0, 0, 0⟩ = (1, ⟨7, 3, 5⟩) ∧
    (∀ fuel, 0 < fuel →
      tegra_choose_dtb ref_libfdt (some (sample_boardids 7 3 5)) [] fuel
          (sample_dtb 7 3 5 0 ++ sample_dtb 7 3 5 1)
        = some { ret := 1
                 dtb_buf := some (sample_dtb 7 3 5 0)
                 dtb_length := some 112
                 candidates := [(0, 112)] }) ∧
    sample_dtb 7 3 5 0 ≠ sample_dtb 7 3 5 1 := by
  refine ⟨sample_dtb_valid_735, sample_dtb_valid_735b, by decide, by decide, ?_, by decide⟩
  intro fuel hf
  rw [tegra_choose_dtb_some]
  exact loop_first_exact ref_libfdt _ (read_devid_rev_lt _ _) [] (sample_dtb 7 3 5 0)
    (sample_dtb 7 3 5 1) (fun x hx => absurd hx (List.not_mem_nil _))
    (fun x hx => absurd hx (List.not_mem_nil _)) sample_dtb_valid_735 (by decide) fuel hf

/-! ## Selection of the best older revision -/

/-- The first element of highest rank among those satisfying `P` is unique. -/
theorem first_max_unique {α : Type} (P : α → Prop) (f : α → Nat) (a b a' b' : List α)
    (x x' : α) (h : a ++ x :: b = a' ++ x' :: b') (hx : P x) (hx' : P x')
    (ha : ∀ y ∈ a, P y → f y < f x) (hb : ∀ y ∈ b, P y → f y ≤ f x)
    (ha' : ∀ y ∈ a', P y → f y < f x') (hb' : ∀ y ∈ b', P y → f y ≤ f x') :
    x = x' := by
  rcases List.append_eq_append_iff.1 h with ⟨c, hc1, hc2⟩ | ⟨c, hc1, hc2⟩
  · cases c with
    | nil =>
      simp only [List.nil_append] at hc2
      exact (List.cons.inj hc2).1
    | cons y c =>
      simp only [List.cons_append] at hc2
      obtain ⟨hy, hc3⟩ := List.cons.inj hc2
      subst hy
      have h1 : f x < f x' := ha' x (by rw [hc1]; simp) hx
      have h2 : f x' ≤ f x := hb x' (by rw [hc3]; simp) hx'
      omega
  · cases c with
    | nil =>
      simp only [List.nil_append] at hc2
      exact (List.cons.inj hc2).1.symm
    | cons y c =>
      simp only [List.cons_append] at hc2
      obtain ⟨hy, hc3⟩ := List.cons.inj hc2
      subst hy
      have h1 : f x' < f x := ha x' (by rw [hc1]; simp) hx'
      have h2 : f x ≤ f x' := hb' x (by rw [hc3]; simp) hx
      omega

/-- The call on an image made of valid entries, none an exact match, followed
by bytes that end the scan: either no entry is an older compatible one and the
call returns 0 without writing the out-parameters, or it returns 1 with a copy
of the first entry that has the highest revision among the older compatible
ones. -/
theorem choose_dtb_no_exact (lib : LibFdt) (file devid_mem : List Nat)
    (es : List (List Nat × Nat)) (tail : List Nat) (fuel : Nat)
    (hv : ∀ x ∈ es, ValidEntry lib x.1)
    (hne : ∀ x ∈ es, ¬ Exact lib (read_devid file devid_mem) x.1)
    (htail : EndsScan lib tail) (hf : es.length < fuel) :
    ∃ r, tegra_choose_dtb lib (some file) devid_mem fuel (layout es ++ tail) = some r ∧
      r.candidates = layout_offsets 0 es ∧
      ((r.ret = 0 ∧ r.dtb_buf = none ∧ r.dtb_length = none ∧
          ∀ x ∈ es, ¬ Older lib (read_devid file devid_mem) x.1) ∨
        ∃ d1 e k d2, es = d1 ++ (e, k) :: d2 ∧ Older lib (read_devid file devid_mem) e ∧
          (∀ x ∈ d1, Older lib (read_devid file devid_mem) x.1 →
            entry_rev lib (read_devid file devid_mem) x.1
              < entry_rev lib (read_devid file devid_mem) e) ∧
          (∀ x ∈ d2, Older lib (read_devid file devid_mem) x.1 →
            entry_rev lib (read_devid file devid_mem) x.1
              ≤ entry_rev lib (read_devid file devid_mem) e) ∧
          r.ret = 1 ∧ r.dtb_buf = some e ∧ r.dtb_length = some e.length) := by
  obtain ⟨s, hinv, hrun⟩ := loop_no_exact lib (read_devid file devid_mem)
    (read_devid_rev_lt file devid_mem) es tail hv hne htail
  obtain ⟨hcand, hres⟩ := finish_of_scanInv lib (read_devid file devid_mem) es tail s hinv
  exact ⟨_, by rw [tegra_choose_dtb_some]; exact hrun fuel hf, hcand, hres⟩

theorem bestSound_next_dtb (lib : LibFdt) (devid : tegra_id) (dtb_img : List Nat)
    (dtb_size : Nat) (s : ScanState) (h : BestSound lib devid dtb_img s) :
    BestSound lib devid dtb_img (next_dtb dtb_img dtb_size s) := h

theorem bestSound_yield (lib : LibFdt) (devid dtb_id : tegra_id) (dtb_img : List Nat)
    (dtb_size : Nat) (s : ScanState) (h : BestSound lib devid dtb_img s) :
    BestSound lib devid dtb_img
      { s with dtb_id := dtb_id, yielded := s.yielded ++ [(s.dtb, dtb_size)] } := by
  intro tag htag
  obtain ⟨h1, h2⟩ := h tag htag
  exact ⟨List.mem_append_left _ h1, h2⟩

theorem bestSound_record (lib : LibFdt) (devid dtb_id : tegra_id) (dtb_img : List Nat)
    (dtb_size : Nat) (s : ScanState) (h : BestSound lib devid dtb_img s)
    (hmem : (s.dtb, dtb_size) ∈ s.yielded) (hfit : s.dtb + dtb_size ≤ dtb_img.length)
    (hc : Compatible lib devid (dtb_img.drop s.dtb))
    (hid : dtb_id.board_rev = entry_rev lib devid (dtb_img.drop s.dtb)) :
    BestSound lib devid dtb_img (record_bestmatch devid dtb_id dtb_size s) := by
  unfold record_bestmatch
  by_cases hlt : dtb_id.board_rev < devid.board_rev
  · rw [if_pos hlt]
    by_cases hupd : s.bestmatch_board_rev_id = INVALID_REV_ID ∨
        s.bestmatch_board_rev_id < dtb_id.board_rev
    · rw [if_pos hupd]
      intro tag htag
      have ht : s.dtb = tag := Option.some.inj htag
      subst ht
      exact ⟨hmem, hfit, hc, hid ▸ hlt⟩
    · rw [if_neg hupd]; exact h
  · rw [if_neg hlt]; exact h

/-- Every result of the loop with `ret = 1`, from a state that satisfies the
invariant, is a copy of a scanned entry that is compatible and not newer than
the device. -/
theorem loop_returns_sound (lib : LibFdt) (devid : tegra_id) (dtb_img : List Nat) :
    ∀ (fuel : Nat) (s : ScanState) (r : ChooseResult), BestSound lib devid dtb_img s →
      tegra_choose_dtb_loop lib devid dtb_img fuel s = some r → r.ret = 1 →
      ∃ p sz, (p, sz) ∈ r.candidates ∧ r.dtb_buf = some (memcpy_from dtb_img p sz) ∧
        r.dtb_length = some sz ∧ p + sz ≤ dtb_img.length ∧
        Compatible lib devid (dtb_img.drop p) ∧
        entry_rev lib devid (dtb_img.drop p) ≤ devid.board_rev := by
  have hfin : ∀ (s : ScanState) (r : ChooseResult), BestSound lib devid dtb_img s →
      tegra_choose_dtb_finish dtb_img s = r → r.ret = 1 →
      ∃ p sz, (p, sz) ∈ r.candidates ∧ r.dtb_buf = some (memcpy_from dtb_img p sz) ∧
        r.dtb_length = some sz ∧ p + sz ≤ dtb_img.length ∧
        Compatible lib devid (dtb_img.drop p) ∧
        entry_rev lib devid (dtb_img.drop p) ≤ devid.board_rev := by
    intro s r hs hr hret
    unfold tegra_choose_dtb_finish at hr
    cases htag : s.bestmatch_tag with
    | none =>
      rw [htag] at hr
      subst hr
      exact absurd hret (show ¬ ((0 : Int) = 1) by decide)
    | some tag =>
      rw [htag] at hr
      subst hr
      obtain ⟨h1, h2, h3, h4⟩ := hs tag htag
      exact ⟨tag, s.bestmatch_tag_size, h1, rfl, rfl, h2, h3, Nat.le_of_lt h4⟩
  intro fuel
  induction fuel with
  | zero =>
    intro s r _ hrun
    simp [tegra_choose_dtb_loop] at hrun
  | succ fuel ih =>
    intro s r hs hrun hret
    rw [tegra_choose_dtb_loop] at hrun
    by_cases h1 : s.dtb + lib.sizeof_fdt_header < dtb_img.length
    · rw [if_pos h1] at hrun
      by_cases h2 : lib.fdt_check_header (memcpy_from dtb_img s.dtb lib.sizeof_fdt_header) ≠ 0 ∨
          s.dtb + lib.fdt_totalsize (memcpy_from dtb_img s.dtb lib.sizeof_fdt_header)
            % 4294967296 > dtb_img.length
      · rw [if_pos h2] at hrun
        exact hfin s r hs (Option.some.inj hrun) hret
      · rw [if_neg h2] at hrun
        simp only at hrun
        have hfit : s.dtb + lib.fdt_totalsize (memcpy_from dtb_img s.dtb lib.sizeof_fdt_header)
            % 4294967296 ≤ dtb_img.length := by
          have := fun h => h2 (Or.inr h)
          omega
        have hfst := tegra_dtb_compatible_fst lib (dtb_img.drop s.dtb) devid s.dtb_id ⟨0, 0, 0⟩
        by_cases hc : (tegra_dtb_compatible lib (dtb_img.drop s.dtb) devid s.dtb_id).1 ≠ 0
        · have hcomp : Compatible lib devid (dtb_img.drop s.dtb) := by
            unfold Compatible; rw [← hfst]; exact hc
          have hid : (tegra_dtb_compatible lib (dtb_img.drop s.dtb) devid s.dtb_id).2.board_rev
              = entry_rev lib devid (dtb_img.drop s.dtb) := by
            unfold entry_rev
            rw [tegra_dtb_compatible_snd lib _ devid s.dtb_id ⟨0, 0, 0⟩ hc]
          rw [if_pos hc] at hrun
          by_cases hx : (tegra_dtb_compatible lib (dtb_img.drop s.dtb) devid
              s.dtb_id).2.board_rev = devid.board_rev
          · rw [if_pos hx] at hrun
            have hr := Option.some.inj hrun
            subst hr
            exact ⟨s.dtb, _, by simp, rfl, rfl, hfit, hcomp, by rw [← hid, hx]⟩
          · rw [if_neg hx] at hrun
            refine ih _ r ?_ hrun hret
            apply bestSound_next_dtb
            apply bestSound_record lib devid _ dtb_img _ _ (bestSound_yield lib devid _ dtb_img _ s hs)
            · simp
            · exact hfit
            · exact hcomp
            · exact hid
        · rw [if_neg hc] at hrun
          refine ih _ r ?_ hrun hret
          apply bestSound_next_dtb
          exact bestSound_yield lib devid _ dtb_img _ s hs
    · rw [if_neg h1] at hrun
      exact hfin s r hs (Option.some.inj hrun) hret

/-- C6: whenever `tegra_choose_dtb` returns 1, on any image, the output buffer
is a copy of an entry that the scan reached (it is in the scan history and lies
inside the image), that `tegra_dtb_compatible` reports as a match for the
device, and whose `board_rev` is at most the device's; the output length is
the size of that entry. -/
theorem choose_dtb_returns_compatible_not_newer (lib : LibFdt) (file devid_mem : List Nat)
    (fuel : Nat) (dtb_img : List Nat) (r : ChooseResult)
    (hrun : tegra_choose_dtb lib (some file) devid_mem fuel dtb_img = some r)
    (hret : r.ret = 1) :
    ∃ p sz, (p, sz) ∈ r.candidates ∧ r.dtb_buf = some (memcpy_from dtb_img p sz) ∧
      r.dtb_length = some sz ∧ p + sz ≤ dtb_img.length ∧
      Compatible lib (read_devid file devid_mem) (dtb_img.drop p) ∧
      entry_rev lib (read_devid file devid_mem) (dtb_img.drop p)
        ≤ (read_devid file devid_mem).board_rev := by
  rw [tegra_choose_dtb_some] at hrun
  refine loop_returns_sound lib _ dtb_img fuel tegra_choose_dtb_init r ?_ hrun hret
  intro tag htag
  exact absurd htag (by simp [tegra_choose_dtb_init])

set_option maxRecDepth 100000 in
/-- Witness for C6: device `(7,3,5)`, image entries `(7,3,6)`, `(7,3,4)`,
`(7,3,3)` followed by five bytes that are no header; the call returns 1. -/
theorem choose_dtb_returns_compatible_not_newer_witness :
    ∃ p sz, (p, sz) ∈ ([(0, 112), (112, 112), (224, 112)] : List (Nat × Nat)) ∧
      some (sample_dtb 7 3 4 0)
        = some (memcpy_from (sample_dtb 7 3 6 0 ++ sample_dtb 7 3 4 0 ++ sample_dtb 7 3 3 0
            ++ [1, 2, 3, 4, 5]) p sz) ∧
      some 112 = some sz ∧
      p + sz ≤ (sample_dtb 7 3 6 0 ++ sample_dtb 7 3 4 0 ++ sample_dtb 7 3 3 0
        ++ [1, 2, 3, 4, 5]).length ∧
      Compatible ref_libfdt (read_devid (sample_boardids 7 3 5) [])
        ((sample_dtb 7 3 6 0 ++ sample_dtb 7 3 4 0 ++ sample_dtb 7 3 3 0
          ++ [1, 2, 3, 4, 5]).drop p) ∧
      entry_rev ref_libfdt (read_devid (sample_boardids 7 3 5) [])
          ((sample_dtb 7 3 6 0 ++ sample_dtb 7 3 4 0 ++ sample_dtb 7 3 3 0
            ++ [1, 2, 3, 4, 5]).drop p)
        ≤ (read_devid (sample_boardids 7 3 5) []).board_rev :=
  choose_dtb_returns_compatible_not_newer ref_libfdt (sample_boardids 7 3 5) [] 10
    (sample_dtb 7 3 6 0 ++ sample_dtb 7 3 4 0 ++ sample_dtb 7 3 3 0 ++ [1, 2, 3, 4, 5])
    { ret := 1
      dtb_buf := some (sample_dtb 7 3 4 0)
      dtb_length := some 112
      candidates := [(0, 112), (112, 112), (224, 112)] }
    (by decide) (by decide)

/-! ## `tegra_dtb_compatible` -/

theorem tegra_dtb_compatible_eq_one_iff (lib : LibFdt) (dtb : List Nat) (devid dtb_id : tegra_id) :
    (tegra_dtb_compatible lib dtb devid dtb_id).1 = 1 ↔
      0 ≤ lib.fdt_path_offset dtb "/" ∧
      ∃ prop, lib.fdt_getprop dtb (lib.fdt_path_offset dtb "/") "nvidia,boardids" = some prop ∧
        12 ≤ prop.length ∧ fdt32_to_cpu prop 0 = devid.platform_id ∧
        fdt32_to_cpu prop 4 = devid.hardware_id := by
  unfold tegra_dtb_compatible sizeof_tegra_id
  simp only
  by_cases hroot : lib.fdt_path_offset dtb "/" < 0
  · rw [if_pos hroot]
    constructor
    · intro h; exact absurd h (show ¬ ((0 : Nat) = 1) by decide)
    · intro h; omega
  · rw [if_neg hroot]
    cases hprop : lib.fdt_getprop dtb (lib.fdt_path_offset dtb "/") "nvidia,boardids" with
    | none =>
      constructor
      · intro h; exact absurd h (show ¬ ((0 : Nat) = 1) by decide)
      · rintro ⟨_, prop, hp, _⟩; exact absurd hp (by simp)
    | some prop =>
      simp only [Option.some.injEq, exists_eq_left']
      by_cases h0 : prop.length ≤ 0
      · rw [if_pos h0]
        constructor
        · intro h; exact absurd h (show ¬ ((0 : Nat) = 1) by decide)
        · rintro ⟨_, h12, _⟩; omega
      · rw [if_neg h0]
        by_cases h12 : prop.length < 12
        · rw [if_pos h12]
          constructor
          · intro h; exact absurd h (show ¬ ((0 : Nat) = 1) by decide)
          · rintro ⟨_, h, _⟩; omega
        · rw [if_neg h12]
          by_cases hne : fdt32_to_cpu prop 0 ≠ devid.platform_id ∨
              fdt32_to_cpu prop 4 ≠ devid.hardware_id
          · rw [if_pos hne]
            constructor
            · intro h; exact absurd h (show ¬ ((0 : Nat) = 1) by decide)
            · rintro ⟨_, _, hp, hh⟩
              rcases hne with hne | hne
              · exact absurd hp hne
              · exact absurd hh hne
          · rw [if_neg hne]
            simp only [not_or, not_not] at hne
            exact ⟨fun _ => ⟨by omega, by omega, hne.1, hne.2⟩, fun _ => rfl⟩

theorem tegra_dtb_compatible_zero_or_one (lib : LibFdt) (dtb : List Nat)
    (devid dtb_id : tegra_id) :
    (tegra_dtb_compatible lib dtb devid dtb_id).1 = 1 ∨
      (tegra_dtb_compatible lib dtb devid dtb_id).1 = 0 := by
  by_cases h : (tegra_dtb_compatible lib dtb devid dtb_id).1 ≠ 0
  · exact Or.inl (tegra_dtb_compatible_ids lib dtb devid dtb_id h).1
  · exact Or.inr (not_not.1 h)

theorem tegra_dtb_compatible_decoded (lib : LibFdt) (dtb : List Nat) (devid dtb_id : tegra_id)
    (prop : List Nat) (h : (tegra_dtb_compatible lib dtb devid dtb_id).1 = 1)
    (hprop : lib.fdt_getprop dtb (lib.fdt_path_offset dtb "/") "nvidia,boardids" = some prop) :
    (tegra_dtb_compatible lib dtb devid dtb_id).2
      = ⟨fdt32_to_cpu prop 0, fdt32_to_cpu prop 4, fdt32_to_cpu prop 8⟩ := by
  unfold tegra_dtb_compatible at h ⊢
  simp only [hprop] at h ⊢
  split
  · simp_all
  · split
    · simp_all
    · split
      · simp_all
      · split
        · simp_all
        · rfl

/-- C7: `tegra_dtb_compatible` returns 1 exactly when the blob has a root node
(`fdt_path_offset` is not negative), the root has an `nvidia,boardids` property
of at least 12 bytes, and the first two big-endian words of the property equal
the device's `platform_id` and `hardware_id`; it returns 0 otherwise.  When it
returns 1, `dtb_id` holds the three big-endian words of the property.  The
answer depends on the property only through its length and its first two
words: two blobs whose properties agree on those get the same answer, whatever
their third words. -/
theorem tegra_dtb_compatible_spec (lib : LibFdt) (dtb : List Nat) (devid dtb_id : tegra_id) :
    ((tegra_dtb_compatible lib dtb devid dtb_id).1 = 1 ↔
      0 ≤ lib.fdt_path_offset dtb "/" ∧
      ∃ prop, lib.fdt_getprop dtb (lib.fdt_path_offset dtb "/") "nvidia,boardids" = some prop ∧
        12 ≤ prop.length ∧ fdt32_to_cpu prop 0 = devid.platform_id ∧
        fdt32_to_cpu prop 4 = devid.hardware_id) ∧
    ((tegra_dtb_compatible lib dtb devid dtb_id).1 = 1 ∨
      (tegra_dtb_compatible lib dtb devid dtb_id).1 = 0) ∧
    (∀ prop, (tegra_dtb_compatible lib dtb devid dtb_id).1 = 1 →
      lib.fdt_getprop dtb (lib.fdt_path_offset dtb "/") "nvidia,boardids" = some prop →
      (tegra_dtb_compatible lib dtb devid dtb_id).2
        = ⟨fdt32_to_cpu prop 0, fdt32_to_cpu prop 4, fdt32_to_cpu prop 8⟩) ∧
    (∀ (lib' : LibFdt) (dtb' : List Nat) (dtb_id' : tegra_id) (prop prop' : List Nat),
      (0 ≤ lib'.fdt_path_offset dtb' "/" ↔ 0 ≤ lib.fdt_path_offset dtb "/") →
      lib.fdt_getprop dtb (lib.fdt_path_offset dtb "/") "nvidia,boardids" = some prop →
      lib'.fdt_getprop dtb' (lib'.fdt_path_offset dtb' "/") "nvidia,boardids" = some prop' →
      prop'.length = prop.length → fdt32_to_cpu prop' 0 = fdt32_to_cpu prop 0 →
      fdt32_to_cpu prop' 4 = fdt32_to_cpu prop 4 →
      (tegra_dtb_compatible lib' dtb' devid dtb_id').1
        = (tegra_dtb_compatible lib dtb devid dtb_id).1) := by
  refine ⟨tegra_dtb_compatible_eq_one_iff lib dtb devid dtb_id,
    tegra_dtb_compatible_zero_or_one lib dtb devid dtb_id,
    fun prop h hprop => tegra_dtb_compatible_decoded lib dtb devid dtb_id prop h hprop, ?_⟩
  intro lib' dtb' dtb_id' prop prop' hroot hprop hprop' hlen h0 h4
  have hiff : (tegra_dtb_compatible lib' dtb' devid dtb_id').1 = 1 ↔
      (tegra_dtb_compatible lib dtb devid dtb_id).1 = 1 := by
    rw [tegra_dtb_compatible_eq_one_iff, tegra_dtb_compatible_eq_one_iff, hprop, hprop', hroot]
    simp only [Option.some.injEq, exists_eq_left', hlen, h0, h4]
  rcases tegra_dtb_compatible_zero_or_one lib' dtb' devid dtb_id' with h' | h' <;>
    rcases tegra_dtb_compatible_zero_or_one lib dtb devid dtb_id with h | h
  · rw [h, h']
  · exact absurd (hiff.1 h') (by rw [h]; decide)
  · exact absurd (hiff.2 h) (by rw [h']; decide)
  · rw [h, h']

/-! ## A bad first header -/

/-- C8: when the header at the start of the image fails `fdt_check_header`
(bad magic, for one), the scan yields no candidate and `tegra_choose_dtb`
returns 0, writing neither out-parameter, within one loop iteration. -/
theorem choose_dtb_bad_first_header (lib : LibFdt) (file devid_mem : List Nat)
    (dtb_img : List Nat) (fuel : Nat)
    (hbad : lib.fdt_check_header (dtb_img.take lib.sizeof_fdt_header) ≠ 0) (hf : 0 < fuel) :
    tegra_choose_dtb lib (some file) devid_mem fuel dtb_img
      = some { ret := 0, dtb_buf := none, dtb_length := none, candidates := [] } := by
  obtain ⟨n, rfl⟩ : ∃ n, fuel = n + 1 := ⟨fuel - 1, by omega⟩
  rw [tegra_choose_dtb_some]
  have := loop_at_end lib (read_devid file devid_mem) [] dtb_img tegra_choose_dtb_init n rfl
    (Or.inr (Or.inl hbad))
  simpa using this

set_option maxRecDepth 100000 in
/-- Witness for C8: a `(7,3,5)` blob whose first magic byte is changed from
`0xd0` to `0xd1`, on a `(7,3,5)` device. -/
theorem choose_dtb_bad_first_header_witness :
    tegra_choose_dtb ref_libfdt (some (sample_boardids 7 3 5)) [] 1
        (209 :: (sample_dtb 7 3 5 0).tail)
      = some { ret := 0, dtb_buf := none, dtb_length := none, candidates := [] } :=
  choose_dtb_bad_first_header ref_libfdt (sample_boardids 7 3 5) []
    (209 :: (sample_dtb 7 3 5 0).tail) 1 (by decide) (by decide)

/-! ## Padding between entries -/

theorem layout_pair (A B : List Nat) (k : Nat) :
    layout [(A, k), (B, 0)] ++ [] = A ++ (List.replicate k 0 ++ B) := by
  simp [layout]

theorem memcpy_from_second (A B : List Nat) (k : Nat) :
    memcpy_from (A ++ (List.replicate k 0 ++ B)) (A.length + k) B.length = B := by
  have h := memcpy_from_entry (A ++ List.replicate k 0) B [] B.length (Nat.le_refl _)
  simpa using h

theorem memcpy_from_first (A rest : List Nat) :
    memcpy_from (A ++ rest) 0 A.length = A := by
  have h := memcpy_from_entry [] A rest A.length (Nat.le_refl _)
  simpa using h

/-- The call on an image of two valid entries `A`, `B` separated by `k` zero
bytes: the candidates are `A` and, unless `A` is an exact match, `B` found at
offset `A.length + k`; the result is described without reference to `k`. -/
theorem choose_dtb_two_entries (lib : LibFdt) (file devid_mem : List Nat) (A B : List Nat)
    (k fuel : Nat) (hA : ValidEntry lib A) (hB : ValidEntry lib B) (hf : 2 < fuel) :
    ∃ r, tegra_choose_dtb lib (some file) devid_mem fuel (A ++ (List.replicate k 0 ++ B))
        = some r ∧
      r.candidates = [(0, A.length), (A.length + k, B.length)].take
        (if Exact lib (read_devid file devid_mem) A then 1 else 2) ∧
      ((Exact lib (read_devid file devid_mem) A ∧
          r.ret = 1 ∧ r.dtb_buf = some A ∧ r.dtb_length = some A.length) ∨
        (¬ Exact lib (read_devid file devid_mem) A ∧ Exact lib (read_devid file devid_mem) B ∧
          r.ret = 1 ∧ r.dtb_buf = some B ∧ r.dtb_length = some B.length) ∨
        (¬ Exact lib (read_devid file devid_mem) A ∧ ¬ Exact lib (read_devid file devid_mem) B ∧
          ((r.ret = 0 ∧ r.dtb_buf = none ∧ r.dtb_length = none ∧
              ∀ x ∈ [A, B], ¬ Older lib (read_devid file devid_mem) x) ∨
            ∃ d1 e d2, [A, B] = d1 ++ e :: d2 ∧ Older lib (read_devid file devid_mem) e ∧
              (∀ x ∈ d1, Older lib (read_devid file devid_mem) x →
                entry_rev lib (read_devid file devid_mem) x
                  < entry_rev lib (read_devid file devid_mem) e) ∧
              (∀ x ∈ d2, Older lib (read_devid file devid_mem) x →
                entry_rev lib (read_devid file devid_mem) x
                  ≤ entry_rev lib (read_devid file devid_mem) e) ∧
              r.ret = 1 ∧ r.dtb_buf = some e ∧ r.dtb_length = some e.length))) := by
  by_cases hxA : Exact lib (read_devid file devid_mem) A
  · have hrun := loop_first_exact lib _ (read_devid_rev_lt file devid_mem) [] A
      (List.replicate k 0 ++ B) (fun x hx => absurd hx (List.not_mem_nil _))
      (fun x hx => absurd hx (List.not_mem_nil _)) hA hxA fuel (by simp; omega)
    rw [← tegra_choose_dtb_some] at hrun
    simp only [layout, List.nil_append, layout_offsets, List.length_nil] at hrun
    exact ⟨_, hrun, by simp [hxA], Or.inl ⟨hxA, rfl, rfl, rfl⟩⟩
  · by_cases hxB : Exact lib (read_devid file devid_mem) B
    · have hrun := loop_first_exact lib _ (read_devid_rev_lt file devid_mem) [(A, k)] B []
        (fun x hx => by rw [List.mem_singleton.1 hx]; exact hA)
        (fun x hx => by rw [List.mem_singleton.1 hx]; exact hxA) hB hxB fuel (by simp; omega)
      rw [← tegra_choose_dtb_some] at hrun
      simp only [layout, List.append_nil, layout_offsets, List.length_append,
        List.length_replicate, List.append_assoc, Nat.zero_add, List.nil_append,
        List.singleton_append] at hrun
      exact ⟨_, hrun, by simp [hxA], Or.inr (Or.inl ⟨hxA, hxB, rfl, rfl, rfl⟩)⟩
    · obtain ⟨r, hrun, hcand, hres⟩ := choose_dtb_no_exact lib file devid_mem
        [(A, k), (B, 0)] [] fuel
        (by
          intro x hx
          simp only [List.mem_cons, List.mem_singleton, List.not_mem_nil, or_false] at hx
          rcases hx with rfl | rfl
          · exact hA
          · exact hB)
        (by
          intro x hx
          simp only [List.mem_cons, List.mem_singleton, List.not_mem_nil, or_false] at hx
          rcases hx with rfl | rfl
          · exact hxA
          · exact hxB)
        (endsScan_nil lib) (by simp; omega)
      rw [layout_pair] at hrun
      refine ⟨r, hrun, by simp [hcand, layout_offsets, hxA], Or.inr (Or.inr ⟨hxA, hxB, ?_⟩)⟩
      rcases hres with ⟨h1, h2, h3, hno⟩ | ⟨d1, e, k', d2, hd, hold, hl, hle, h1, h2, h3⟩
      · refine Or.inl ⟨h1, h2, h3, ?_⟩
        intro x hx
        simp only [List.mem_cons, List.mem_singleton, List.not_mem_nil, or_false] at hx
        rcases hx with rfl | rfl
        · exact hno (x, k) (by simp)
        · exact hno (x, 0) (by simp)
      · refine Or.inr ⟨d1.map Prod.fst, e, d2.map Prod.fst, ?_, hold, ?_, ?_, h1, h2, h3⟩
        · have := congrArg (List.map Prod.fst) hd
          simpa using this
        · intro y hy; obtain ⟨x, hx, rfl⟩ := List.mem_map.1 hy; exact hl x hx
        · intro y hy; obtain ⟨x, hx, rfl⟩ := List.mem_map.1 hy; exact hle x hx

/-- C9: for valid entries `A` and `B` and any `k`, the scan of
`A ++ (k zero bytes) ++ B` yields the same candidates as the scan of `A ++ B`
(the same number of them, with the same sizes and the same bytes, `B` being
found `k` bytes further), and `tegra_choose_dtb` returns the same code, the
same output bytes and the same output length on both images. -/
theorem choose_dtb_padding_irrelevant (lib : LibFdt) (file devid_mem : List Nat)
    (A B : List Nat) (k fuel : Nat) (hA : ValidEntry lib A) (hB : ValidEntry lib B)
    (hf : 2 < fuel) :
    ∃ r1 r2 n,
      tegra_choose_dtb lib (some file) devid_mem fuel (A ++ (List.replicate k 0 ++ B))
        = some r1 ∧
      tegra_choose_dtb lib (some file) devid_mem fuel (A ++ B) = some r2 ∧
      r1.candidates = [(0, A.length), (A.length + k, B.length)].take n ∧
      r2.candidates = [(0, A.length), (A.length, B.length)].take n ∧
      r1.candidates.map (fun c => memcpy_from (A ++ (List.replicate k 0 ++ B)) c.1 c.2)
        = [A, B].take n ∧
      r2.candidates.map (fun c => memcpy_from (A ++ B) c.1 c.2) = [A, B].take n ∧
      r1.ret = r2.ret ∧ r1.dtb_buf = r2.dtb_buf ∧ r1.dtb_length = r2.dtb_length := by
  obtain ⟨r1, hrun1, hcand1, hres1⟩ :=
    choose_dtb_two_entries lib file devid_mem A B k fuel hA hB hf
  obtain ⟨r2, hrun2, hcand2, hres2⟩ :=
    choose_dtb_two_entries lib file devid_mem A B 0 fuel hA hB hf
  simp only [List.replicate_zero, List.nil_append, Nat.add_zero] at hrun2 hcand2
  have hm1 := memcpy_from_first A (List.replicate k 0 ++ B)
  have hm2 := memcpy_from_second A B k
  have hm3 := memcpy_from_first A B
  have hm4 := memcpy_from_second A B 0
  simp only [List.replicate_zero, List.nil_append, Nat.add_zero] at hm4
  refine ⟨r1, r2, if Exact lib (read_devid file devid_mem) A then 1 else 2, hrun1, hrun2,
    hcand1, hcand2, ?_, ?_, ?_⟩
  · rw [hcand1]
    by_cases hxA : Exact lib (read_devid file devid_mem) A
    · simp [hxA, hm1]
    · simp [hxA, hm1, hm2]
  · rw [hcand2]
    by_cases hxA : Exact lib (read_devid file devid_mem) A
    · simp [hxA, hm3]
    · simp [hxA, hm3, hm4]
  · rcases hres1 with ⟨_, a1, a2, a3⟩ | ⟨hnA, _, a1, a2, a3⟩ | ⟨hnA, hnB, hsel1⟩
    · rcases hres2 with ⟨_, b1, b2, b3⟩ | ⟨hnA, _⟩ | ⟨hnA, _⟩
      · exact ⟨by rw [a1, b1], by rw [a2, b2], by rw [a3, b3]⟩
      · contradiction
      · contradiction
    · rcases hres2 with ⟨hxA, _⟩ | ⟨_, _, b1, b2, b3⟩ | ⟨_, hnB, _⟩
      · contradiction
      · exact ⟨by rw [a1, b1], by rw [a2, b2], by rw [a3, b3]⟩
      · contradiction
    · rcases hres2 with ⟨hxA, _⟩ | ⟨_, hxB, _⟩ | ⟨_, _, hsel2⟩
      · contradiction
      · contradiction
      · rcases hsel1 with ⟨a1, a2, a3, hno1⟩ | ⟨d1, e, d2, hd, hold, hl, hle, a1, a2, a3⟩
        · rcases hsel2 with ⟨b1, b2, b3, _⟩ | ⟨d1', e', d2', hd', hold', _⟩
          · exact ⟨by rw [a1, b1], by rw [a2, b2], by rw [a3, b3]⟩
          · exact absurd hold' (hno1 e' (by rw [hd']; simp))
        · rcases hsel2 with ⟨_, _, _, hno2⟩ | ⟨d1', e', d2', hd', hold', hl', hle', b1, b2, b3⟩
          · exact absurd hold (hno2 e (by rw [hd]; simp))
          · have he : e = e' := first_max_unique (Older lib (read_devid file devid_mem))
              (entry_rev lib (read_devid file devid_mem)) d1 d2 d1' d2' e e'
              (hd.symm.trans hd') hold hold' hl hle hl' hle'
            subst he
            exact ⟨by rw [a1, b1], by rw [a2, b2], by rw [a3, b3]⟩

set_option maxRecDepth 100000 in
/-- Witness for C9: the entries `(7,3,3)` and `(7,3,4)` with three padding
bytes between them, on a `(7,3,5)` device. -/
theorem choose_dtb_padding_irrelevant_witness :
    ∃ r1 r2 n,
      tegra_choose_dtb ref_libfdt (some (sample_boardids 7 3 5)) [] 3
          (sample_dtb 7 3 3 0 ++ (List.replicate 3 0 ++ sample_dtb 7 3 4 0)) = some r1 ∧
      tegra_choose_dtb ref_libfdt (some (sample_boardids 7 3 5)) [] 3
          (sample_dtb 7 3 3 0 ++ sample_dtb 7 3 4 0) = some r2 ∧
      r1.candidates = [(0, (sample_dtb 7 3 3 0).length),
        ((sample_dtb 7 3 3 0).length + 3, (sample_dtb 7 3 4 0).length)].take n ∧
      r2.candidates = [(0, (sample_dtb 7 3 3 0).length),
        ((sample_dtb 7 3 3 0).length, (sample_dtb 7 3 4 0).length)].take n ∧
      r1.candidates.map (fun c => memcpy_from
          (sample_dtb 7 3 3 0 ++ (List.replicate 3 0 ++ sample_dtb 7 3 4 0)) c.1 c.2)
        = [sample_dtb 7 3 3 0, sample_dtb 7 3 4 0].take n ∧
      r2.candidates.map (fun c => memcpy_from
          (sample_dtb 7 3 3 0 ++ sample_dtb 7 3 4 0) c.1 c.2)
        = [sample_dtb 7 3 3 0, sample_dtb 7 3 4 0].take n ∧
      r1.ret = r2.ret ∧ r1.dtb_buf = r2.dtb_buf ∧ r1.dtb_length = r2.dtb_length :=
  choose_dtb_padding_irrelevant ref_libfdt (sample_boardids 7 3 5) []
    (sample_dtb 7 3 3 0) (sample_dtb 7 3 4 0) 3 3 sample_dtb_valid_733 sample_dtb_valid_734
    (by decide)

/-! ## `tegra_add_extra_regs` -/

theorem append_regs_short {Buf : Type} (lib : LibFdtRw Buf) (off : Int) (file : List Nat)
    (dtb_buf : Buf) (h : file.length < 4) : append_regs lib off file dtb_buf = dtb_buf := by
  match file, h with
  | [], _ => rfl
  | [_], _ => rfl
  | [_, _], _ => rfl
  | [_, _, _], _ => rfl
  | _ :: _ :: _ :: _ :: _, h => simp at h; omega

theorem append_regs_word {Buf : Type} (lib : LibFdtRw Buf) (off : Int) (w file : List Nat)
    (dtb_buf : Buf) (h : w.length = 4) :
    append_regs lib off (w ++ file) dtb_buf
      = append_regs lib off file (lib.fdt_appendprop dtb_buf off "reg" w) := by
  match w, h with
  | [_, _, _, _], _ => rfl

/-- The append loop on a stream of whole words followed by less than a word:
with a library whose `fdt_appendprop` appends, the `reg` property ends up as
its previous content followed by the words. -/
theorem append_regs_getprop {Buf : Type} (lib : LibFdtRw Buf) (off : Int)
    (happ : ∀ b val, lib.fdt_getprop (lib.fdt_appendprop b off "reg" val) off "reg"
      = some ((lib.fdt_getprop b off "reg").getD [] ++ val))
    (extra : List Nat) (hextra : extra.length < 4) :
    ∀ (words : List (List Nat)) (dtb_buf : Buf), (∀ w ∈ words, w.length = 4) →
      lib.fdt_getprop (append_regs lib off (words.flatten ++ extra) dtb_buf) off "reg"
        = if words = [] then lib.fdt_getprop dtb_buf off "reg"
          else some ((lib.fdt_getprop dtb_buf off "reg").getD [] ++ words.flatten) := by
  intro words
  induction words with
  | nil =>
    intro dtb_buf _
    simp [append_regs_short lib off extra dtb_buf hextra]
  | cons w words ih =>
    intro dtb_buf hw
    have hw4 : w.length = 4 := hw w (List.mem_cons_self _ _)
    have hws : ∀ w' ∈ words, w'.length = 4 := fun w' h => hw w' (List.mem_cons_of_mem _ h)
    rw [List.flatten_cons, List.append_assoc, append_regs_word lib off w _ dtb_buf hw4,
      ih _ hws, happ]
    by_cases hnil : words = []
    · simp [hnil]
    · simp [hnil]

/-- The patch with a library that never runs out of room: when `fdt_delprop`
removes the property and `fdt_appendprop` appends to it for every buffer and
value, the `/memory` node exists and the memory-map source opens and holds the
four-byte words `words` (and possibly a trailing piece shorter than a word),
`tegra_add_extra_regs` returns 0 and the `reg` property of `/memory` is
afterwards exactly the concatenation of the words in read order, nothing of
its prior content remaining; with no word at all the property is absent. -/
theorem add_extra_regs_replaces_reg {Buf : Type} (lib : LibFdtRw Buf) (dtb_buf : Buf)
    (words : List (List Nat)) (extra : List Nat)
    (hw : ∀ w ∈ words, w.length = 4) (hextra : extra.length < 4)
    (hoff : 0 ≤ lib.fdt_path_offset dtb_buf "/memory")
    (hdel : ∀ b, lib.fdt_getprop
      (lib.fdt_delprop b (lib.fdt_path_offset dtb_buf "/memory") "reg")
      (lib.fdt_path_offset dtb_buf "/memory") "reg" = none)
    (happ : ∀ b val, lib.fdt_getprop
      (lib.fdt_appendprop b (lib.fdt_path_offset dtb_buf "/memory") "reg" val)
      (lib.fdt_path_offset dtb_buf "/memory") "reg"
        = some ((lib.fdt_getprop b (lib.fdt_path_offset dtb_buf "/memory") "reg").getD [] ++ val)) :
    (tegra_add_extra_regs lib (some (words.flatten ++ extra)) dtb_buf).1 = 0 ∧
    lib.fdt_getprop (tegra_add_extra_regs lib (some (words.flatten ++ extra)) dtb_buf).2
        (lib.fdt_path_offset dtb_buf "/memory") "reg"
      = if words = [] then none else some words.flatten := by
  unfold tegra_add_extra_regs
  simp only [Int.not_lt.2 hoff, if_false]
  refine ⟨trivial, ?_⟩
  rw [append_regs_getprop lib _ happ extra hextra words _ hw, hdel]
  simp

set_option maxRecDepth 100000 in
/-- C10, the code at the failing input: a blob with no free byte whose `reg`
holds two words, patched from a source of three words.  `fdt_delprop` frees the
20 bytes of the old record, the first two `fdt_appendprop` calls use them up,
the third fails for lack of space; its return code is discarded, the call
returns 0 and `reg` holds two of the three words. -/
theorem add_extra_regs_no_space_drops_words :
    (tegra_add_extra_regs ref_libfdt_rw_sized
        (some ([[128, 0, 0, 0], [127, 240, 0, 0], [1, 2, 3, 4]].flatten)) tight_blob).1 = 0 ∧
    ref_libfdt_rw_sized.fdt_getprop
        (tegra_add_extra_regs ref_libfdt_rw_sized
          (some ([[128, 0, 0, 0], [127, 240, 0, 0], [1, 2, 3, 4]].flatten)) tight_blob).2
        64 "reg"
      = some [128, 0, 0, 0, 127, 240, 0, 0] ∧
    ref_libfdt_rw_sized.fdt_getprop
        (tegra_add_extra_regs ref_libfdt_rw_sized
          (some ([[128, 0, 0, 0], [127, 240, 0, 0], [1, 2, 3, 4]].flatten)) tight_blob).2
        64 "reg"
      ≠ some ([[128, 0, 0, 0], [127, 240, 0, 0], [1, 2, 3, 4]].flatten) := by
  decide

/-! ## The loop as iterated `scan_iter` -/

theorem tegra_choose_dtb_loop_succ (lib : LibFdt) (devid : tegra_id) (dtb_img : List Nat)
    (fuel : Nat) (s : ScanState) :
    tegra_choose_dtb_loop lib devid dtb_img (fuel + 1) s =
      match scan_iter lib devid dtb_img s with
      | Sum.inl r => some r
      | Sum.inr s' => tegra_choose_dtb_loop lib devid dtb_img fuel s' := by
  rw [tegra_choose_dtb_loop]
  unfold scan_iter
  simp only
  split_ifs <;> rfl

/-! ## The board identity source -/

/-- The guarded case of the identity read: when the board identity source
cannot be opened, `tegra_choose_dtb` returns 0, writes neither out-parameter
and scans nothing, whatever the image and with no fuel at all. -/
theorem choose_dtb_missing_source (lib : LibFdt) (devid_mem : List Nat) (fuel : Nat)
    (dtb_img : List Nat) :
    tegra_choose_dtb lib none devid_mem fuel dtb_img
        = some { ret := 0, dtb_buf := none, dtb_length := none, candidates := [] } ∧
      tegra_choose_dtb lib none devid_mem 0 dtb_img
        = tegra_choose_dtb lib none devid_mem fuel dtb_img := by
  constructor
  · rfl
  · rfl

set_option maxRecDepth 100000 in
/-- C11, the code at the failing input: the identity source opens and holds
only eight bytes, the words 7 and 3; the image is one `(7,3,4)` entry.  The
result of `fread` is not looked at and the call goes on to scan the image with
a `board_rev` made of the bytes `devid` happened to hold.  With zero bytes
there the identity is `(7,3,0)`: the entry is scanned and refused.  With the
word 4 there the identity is `(7,3,4)`: the call returns 1 with the entry.  In
neither case is the short read treated as a missing source. -/
theorem choose_dtb_short_read_scans :
    (be32_bytes 7 ++ be32_bytes 3).length < sizeof_tegra_id ∧
    read_devid (be32_bytes 7 ++ be32_bytes 3) (List.replicate 12 0) = ⟨7, 3, 0⟩ ∧
    tegra_choose_dtb ref_libfdt (some (be32_bytes 7 ++ be32_bytes 3)) (List.replicate 12 0) 2
        (sample_dtb 7 3 4 0)
      = some { ret := 0, dtb_buf := none, dtb_length := none, candidates := [(0, 112)] } ∧
    read_devid (be32_bytes 7 ++ be32_bytes 3) (List.replicate 8 0 ++ be32_bytes 4)
      = ⟨7, 3, 4⟩ ∧
    tegra_choose_dtb ref_libfdt (some (be32_bytes 7 ++ be32_bytes 3))
        (List.replicate 8 0 ++ be32_bytes 4) 2 (sample_dtb 7 3 4 0)
      = some { ret := 1
               dtb_buf := some (sample_dtb 7 3 4 0)
               dtb_length := some 112
               candidates := [(0, 112)] } := by
  decide

/-! ## Termination of the scan -/

/-- A cursor position at which the loop makes no progress: the header there
passes the checks and declares a total size of 0, the entry is not compatible
and the byte at the cursor is not a padding byte.  From there the loop never
ends, whatever the fuel. -/
theorem loop_stuck (lib : LibFdt) (devid : tegra_id) (dtb_img : List Nat) (p : Nat)
    (h1 : p + lib.sizeof_fdt_header < dtb_img.length)
    (h2 : lib.fdt_check_header (memcpy_from dtb_img p lib.sizeof_fdt_header) = 0)
    (h3 : lib.fdt_totalsize (memcpy_from dtb_img p lib.sizeof_fdt_header) % 4294967296 = 0)
    (h4 : ¬ Compatible lib devid (dtb_img.drop p))
    (h5 : skip_padding (dtb_img.drop p) p = p) :
    ∀ (fuel : Nat) (s : ScanState), s.dtb = p →
      tegra_choose_dtb_loop lib devid dtb_img fuel s = none := by
  intro fuel
  induction fuel with
  | zero => intro s _; rfl
  | succ fuel ih =>
    intro s hs
    have hc : (tegra_dtb_compatible lib (dtb_img.drop p) devid s.dtb_id).1 = 0 := by
      rw [tegra_dtb_compatible_fst lib _ devid s.dtb_id ⟨0, 0, 0⟩]
      exact not_not.1 h4
    have hfit : ¬ (¬ lib.fdt_check_header (memcpy_from dtb_img p lib.sizeof_fdt_header) = 0 ∨
        p > dtb_img.length) := by
      rw [h2]
      simp only [not_true_eq_false, false_or]
      omega
    have hit : scan_iter lib devid dtb_img s = Sum.inr
        { s with
          dtb := p
          dtb_id := (tegra_dtb_compatible lib (dtb_img.drop p) devid s.dtb_id).2
          yielded := s.yielded ++ [(p, 0)] } := by
      unfold scan_iter next_dtb
      simp only [hs, h1, if_true, h3, hfit, if_false, hc, ne_eq, not_true_eq_false,
        Nat.add_zero, h5]
    rw [tegra_choose_dtb_loop_succ, hit]
    exact ih _ rfl

set_option maxRecDepth 100000 in
/-- C12, the code at the failing input: device `(7,3,5)`, image a `(8,4,5)`
blob whose header declares a total size of 0.  The header passes
`fdt_check_header` of the reference library, `dtb += 0` leaves the cursor
where it is, the byte there is `0xd0` and is not skipped: the loop does not
terminate, no amount of fuel yields a result. -/
theorem choose_dtb_zero_size_spins :
    ∀ fuel, tegra_choose_dtb ref_libfdt (some (sample_boardids 7 3 5)) [] fuel
      (sample_dtb_sized 8 4 5 0) = none := by
  intro fuel
  rw [tegra_choose_dtb_some]
  exact loop_stuck ref_libfdt _ (sample_dtb_sized 8 4 5 0) 0 (by decide) (by decide)
    (by decide) (by decide) (by decide) fuel tegra_choose_dtb_init rfl

/-! ## Termination when every validated header declares a size -/

theorem skip_padding_bounds (mem : List Nat) (dtb : Nat) :
    dtb ≤ skip_padding mem dtb ∧ skip_padding mem dtb ≤ dtb + mem.length := by
  induction mem generalizing dtb with
  | nil => simp [skip_padding]
  | cons b mem ih =>
    unfold skip_padding
    split_ifs
    · have := ih (dtb + 1)
      simp only [List.length_cons]
      omega
    · simp only [List.length_cons]
      omega

/-- The complement of `loop_stuck`: with a library whose validated headers
never declare a total size of 0, every iteration that stays in the loop moves
the cursor forward, and the loop ends within `dtb_img.length - s.dtb + 1`
iterations. -/
theorem loop_terminates_of_progress (lib : LibFdt) (devid : tegra_id) (dtb_img : List Nat)
    (hprog : ∀ hdr, lib.fdt_check_header hdr = 0 → lib.fdt_totalsize hdr % 4294967296 ≠ 0) :
    ∀ (fuel : Nat) (s : ScanState), dtb_img.length - s.dtb < fuel →
      ∃ r, tegra_choose_dtb_loop lib devid dtb_img fuel s = some r := by
  intro fuel
  induction fuel with
  | zero => intro s h; omega
  | succ fuel ih =>
    intro s hfuel
    have hnext : ∀ t : ScanState, t.dtb = s.dtb →
        s.dtb + lib.sizeof_fdt_header < dtb_img.length →
        lib.fdt_check_header (memcpy_from dtb_img s.dtb lib.sizeof_fdt_header) = 0 →
        s.dtb + lib.fdt_totalsize (memcpy_from dtb_img s.dtb lib.sizeof_fdt_header)
          % 4294967296 ≤ dtb_img.length →
        ∃ r, tegra_choose_dtb_loop lib devid dtb_img fuel
          (next_dtb dtb_img (lib.fdt_totalsize (memcpy_from dtb_img s.dtb lib.sizeof_fdt_header)
            % 4294967296) t) = some r := by
      intro t ht h1 hchk hfit
      apply ih
      have hpos := hprog _ hchk
      have hb := (skip_padding_bounds
        (dtb_img.drop (t.dtb + lib.fdt_totalsize
          (memcpy_from dtb_img s.dtb lib.sizeof_fdt_header) % 4294967296))
        (t.dtb + lib.fdt_totalsize
          (memcpy_from dtb_img s.dtb lib.sizeof_fdt_header) % 4294967296)).1
      show dtb_img.length - skip_padding _ _ < fuel
      rw [ht] at hb
      rw [ht]
      omega
    rw [tegra_choose_dtb_loop]
    by_cases h1 : s.dtb + lib.sizeof_fdt_header < dtb_img.length
    · rw [if_pos h1]
      by_cases h2 : lib.fdt_check_header (memcpy_from dtb_img s.dtb lib.sizeof_fdt_header) ≠ 0 ∨
          s.dtb + lib.fdt_totalsize (memcpy_from dtb_img s.dtb lib.sizeof_fdt_header)
            % 4294967296 > dtb_img.length
      · simp only [if_pos h2]
        exact ⟨_, rfl⟩
      · simp only [if_neg h2]
        have hchk : lib.fdt_check_header (memcpy_from dtb_img s.dtb lib.sizeof_fdt_header) = 0 :=
          not_not.1 (fun h => h2 (Or.inl h))
        have hfit : s.dtb + lib.fdt_totalsize (memcpy_from dtb_img s.dtb lib.sizeof_fdt_header)
            % 4294967296 ≤ dtb_img.length := by
          have := fun h => h2 (Or.inr h)
          omega
        split_ifs
        · exact ⟨_, rfl⟩
        · exact hnext _ (record_bestmatch_dtb _ _ _ _) h1 hchk hfit
        · exact hnext _ rfl h1 hchk hfit
    · rw [if_neg h1]
      exact ⟨_, rfl⟩

/-! ## The out-parameters and the bounds of the copies, on any image -/

theorem stateOk_init (lib : LibFdt) (dtb_img : List Nat) :
    StateOk lib dtb_img tegra_choose_dtb_init :=
  ⟨fun _ hc => absurd hc (List.not_mem_nil _), fun _ h => absurd h (by simp [tegra_choose_dtb_init])⟩

theorem finish_resultOk (lib : LibFdt) (dtb_img : List Nat) (s : ScanState)
    (hs : StateOk lib dtb_img s) : ResultOk lib dtb_img (tegra_choose_dtb_finish dtb_img s) := by
  unfold tegra_choose_dtb_finish
  cases htag : s.bestmatch_tag with
  | none => exact ⟨hs.1, Or.inl ⟨rfl, rfl, rfl⟩⟩
  | some tag => exact ⟨hs.1, Or.inr ⟨rfl, (tag, s.bestmatch_tag_size), hs.2 tag htag, rfl, rfl⟩⟩

theorem stateOk_yield (lib : LibFdt) (dtb_img : List Nat) (dtb_id : tegra_id) (s : ScanState)
    (hs : StateOk lib dtb_img s)
    (hy : YieldOk lib dtb_img (s.dtb,
      lib.fdt_totalsize (memcpy_from dtb_img s.dtb lib.sizeof_fdt_header) % 4294967296)) :
    StateOk lib dtb_img
      { s with
        dtb_id := dtb_id
        yielded := s.yielded ++ [(s.dtb,
          lib.fdt_totalsize (memcpy_from dtb_img s.dtb lib.sizeof_fdt_header) % 4294967296)] } := by
  constructor
  · intro c hc
    rcases List.mem_append.1 hc with hc | hc
    · exact hs.1 c hc
    · rw [List.mem_singleton.1 hc]; exact hy
  · intro tag htag
    exact List.mem_append_left _ (hs.2 tag htag)

theorem stateOk_record (lib : LibFdt) (dtb_img : List Nat) (devid dtb_id : tegra_id)
    (dtb_size : Nat) (s : ScanState) (hs : StateOk lib dtb_img s)
    (hmem : (s.dtb, dtb_size) ∈ s.yielded) :
    StateOk lib dtb_img (record_bestmatch devid dtb_id dtb_size s) := by
  unfold record_bestmatch
  split_ifs
  · refine ⟨hs.1, ?_⟩
    intro tag htag
    have ht : s.dtb = tag := Option.some.inj htag
    subst ht
    exact hmem
  · exact hs
  · exact hs

theorem stateOk_next_dtb (lib : LibFdt) (dtb_img : List Nat) (dtb_size : Nat) (s : ScanState)
    (hs : StateOk lib dtb_img s) : StateOk lib dtb_img (next_dtb dtb_img dtb_size s) := hs

/-- One iteration keeps the invariant `StateOk`, and a result it produces
satisfies `ResultOk`. -/
theorem scan_iter_ok (lib : LibFdt) (devid : tegra_id) (dtb_img : List Nat) (s : ScanState)
    (hs : StateOk lib dtb_img s) :
    match scan_iter lib devid dtb_img s with
    | Sum.inl r => ResultOk lib dtb_img r
    | Sum.inr s' => StateOk lib dtb_img s' := by
  unfold scan_iter
  by_cases h1 : s.dtb + lib.sizeof_fdt_header < dtb_img.length
  · rw [if_pos h1]
    by_cases h2 : lib.fdt_check_header (memcpy_from dtb_img s.dtb lib.sizeof_fdt_header) ≠ 0 ∨
        s.dtb + lib.fdt_totalsize (memcpy_from dtb_img s.dtb lib.sizeof_fdt_header)
          % 4294967296 > dtb_img.length
    · simp only [if_pos h2]
      exact finish_resultOk lib dtb_img s hs
    · simp only [if_neg h2]
      have hy : YieldOk lib dtb_img (s.dtb,
          lib.fdt_totalsize (memcpy_from dtb_img s.dtb lib.sizeof_fdt_header) % 4294967296) := by
        refine ⟨h1, ?_, rfl, ?_⟩
        · exact not_not.1 (fun h => h2 (Or.inl h))
        · have := fun h => h2 (Or.inr h)
          simp only at this ⊢
          omega
      have hs1 := stateOk_yield lib dtb_img
        (tegra_dtb_compatible lib (dtb_img.drop s.dtb) devid s.dtb_id).2 s hs hy
      by_cases hc : (tegra_dtb_compatible lib (dtb_img.drop s.dtb) devid s.dtb_id).1 ≠ 0
      · rw [if_pos hc]
        by_cases hx : (tegra_dtb_compatible lib (dtb_img.drop s.dtb) devid
            s.dtb_id).2.board_rev = devid.board_rev
        · rw [if_pos hx]
          exact ⟨hs1.1, Or.inr ⟨rfl, _, List.mem_append_right _ (List.mem_singleton_self _),
            rfl, rfl⟩⟩
        · rw [if_neg hx]
          apply stateOk_next_dtb
          apply stateOk_record lib dtb_img devid _ _ _ hs1
          exact List.mem_append_right _ (List.mem_singleton_self _)
      · rw [if_neg hc]
        exact stateOk_next_dtb lib dtb_img _ _ hs1
  · rw [if_neg h1]
    exact finish_resultOk lib dtb_img s hs

theorem loop_resultOk (lib : LibFdt) (devid : tegra_id) (dtb_img : List Nat) :
    ∀ (fuel : Nat) (s : ScanState) (r : ChooseResult), StateOk lib dtb_img s →
      tegra_choose_dtb_loop lib devid dtb_img fuel s = some r → ResultOk lib dtb_img r := by
  intro fuel
  induction fuel with
  | zero =>
    intro s r _ hrun
    simp [tegra_choose_dtb_loop] at hrun
  | succ fuel ih =>
    intro s r hs hrun
    rw [tegra_choose_dtb_loop_succ] at hrun
    have hok := scan_iter_ok lib devid dtb_img s hs
    cases hit : scan_iter lib devid dtb_img s with
    | inl r' =>
      rw [hit] at hrun hok
      rw [← Option.some.inj hrun]
      exact hok
    | inr s' =>
      rw [hit] at hrun hok
      exact ih s' r hok hrun

theorem choose_dtb_resultOk (lib : LibFdt) (boardids : Option (List Nat))
    (devid_mem : List Nat) (fuel : Nat) (dtb_img : List Nat) (r : ChooseResult)
    (hrun : tegra_choose_dtb lib boardids devid_mem fuel dtb_img = some r) :
    ResultOk lib dtb_img r := by
  cases boardids with
  | none =>
    have hr : r = { ret := 0, dtb_buf := none, dtb_length := none, candidates := [] } :=
      (Option.some.inj hrun).symm
    rw [hr]
    exact ⟨fun _ hc => absurd hc (List.not_mem_nil _), Or.inl ⟨rfl, rfl, rfl⟩⟩
  | some file =>
    rw [tegra_choose_dtb_some] at hrun
    exact loop_resultOk lib _ dtb_img fuel _ r (stateOk_init lib dtb_img) hrun

theorem memcpy_from_length (dtb_img : List Nat) (p n : Nat) (h : p + n ≤ dtb_img.length) :
    (memcpy_from dtb_img p n).length = n := by
  unfold memcpy_from
  rw [List.length_take, List.length_drop]
  omega

/-- C13: whenever `tegra_choose_dtb` returns, on any image and whether or not
the identity source opens, the code is 0 or 1.  With 0 neither out-parameter
is written, so no buffer was allocated.  With 1 both are written: `*dtb_buf`
is the one freshly allocated buffer, a copy of a scanned entry, and
`*dtb_length` is the total size that entry's header declares, which is also
the length of the copy. -/
theorem choose_dtb_out_parameters (lib : LibFdt) (boardids : Option (List Nat))
    (devid_mem : List Nat) (fuel : Nat) (dtb_img : List Nat) (r : ChooseResult)
    (hrun : tegra_choose_dtb lib boardids devid_mem fuel dtb_img = some r) :
    (r.ret = 0 ∨ r.ret = 1) ∧
    (r.ret = 0 → r.dtb_buf = none ∧ r.dtb_length = none) ∧
    (r.ret = 1 → ∃ p sz, (p, sz) ∈ r.candidates ∧
      r.dtb_buf = some (memcpy_from dtb_img p sz) ∧ (memcpy_from dtb_img p sz).length = sz ∧
      r.dtb_length = some sz ∧
      sz = lib.fdt_totalsize (memcpy_from dtb_img p lib.sizeof_fdt_header) % 4294967296) := by
  obtain ⟨hcand, hres⟩ := choose_dtb_resultOk lib boardids devid_mem fuel dtb_img r hrun
  rcases hres with ⟨h0, hbuf, hlen⟩ | ⟨h1, c, hc, hbuf, hlen⟩
  · refine ⟨Or.inl h0, fun _ => ⟨hbuf, hlen⟩, fun h => ?_⟩
    rw [h0] at h
    exact absurd h (by decide)
  · refine ⟨Or.inr h1, fun h => ?_, fun _ => ?_⟩
    · rw [h1] at h
      exact absurd h (by decide)
    · obtain ⟨_, _, hsz, hfit⟩ := hcand c hc
      exact ⟨c.1, c.2, hc, hbuf, memcpy_from_length dtb_img c.1 c.2 hfit, hlen, hsz⟩

set_option maxRecDepth 100000 in
/-- Witness for C13: device `(7,3,5)`, image entries `(7,3,3)`, `(7,3,4)`; the
call returns 1 with the second entry. -/
theorem choose_dtb_out_parameters_witness :
    ((1 : Int) = 0 ∨ (1 : Int) = 1) ∧
    ((1 : Int) = 0 → some (sample_dtb 7 3 4 0) = none ∧ some 112 = none) ∧
    ((1 : Int) = 1 → ∃ p sz, (p, sz) ∈ ([(0, 112), (112, 112)] : List (Nat × Nat)) ∧
      some (sample_dtb 7 3 4 0)
        = some (memcpy_from (sample_dtb 7 3 3 0 ++ sample_dtb 7 3 4 0) p sz) ∧
      (memcpy_from (sample_dtb 7 3 3 0 ++ sample_dtb 7 3 4 0) p sz).length = sz ∧
      some 112 = some sz ∧
      sz = ref_libfdt.fdt_totalsize (memcpy_from (sample_dtb 7 3 3 0 ++ sample_dtb 7 3 4 0) p
        ref_libfdt.sizeof_fdt_header) % 4294967296) :=
  choose_dtb_out_parameters ref_libfdt (some (sample_boardids 7 3 5)) [] 3
    (sample_dtb 7 3 3 0 ++ sample_dtb 7 3 4 0)
    { ret := 1
      dtb_buf := some (sample_dtb 7 3 4 0)
      dtb_length := some 112
      candidates := [(0, 112), (112, 112)] }
    (by decide)

/-! ## The return code of `tegra_add_extra_regs` -/

/-- C14: `tegra_add_extra_regs` returns -1 exactly when the `/memory` node is
absent (`fdt_path_offset` is negative) or the memory-map source cannot be
opened, and 0 exactly in the other case, that of a node that exists and a
source that opens. -/
theorem add_extra_regs_return_code {Buf : Type} (lib : LibFdtRw Buf)
    (memory_reg : Option (List Nat)) (dtb_buf : Buf) :
    ((tegra_add_extra_regs lib memory_reg dtb_buf).1 = -1 ↔
      lib.fdt_path_offset dtb_buf "/memory" < 0 ∨ memory_reg = none) ∧
    ((tegra_add_extra_regs lib memory_reg dtb_buf).1 = 0 ↔
      0 ≤ lib.fdt_path_offset dtb_buf "/memory" ∧ memory_reg ≠ none) := by
  unfold tegra_add_extra_regs
  by_cases hoff : lib.fdt_path_offset dtb_buf "/memory" < 0
  · simp only [hoff, if_true, true_or, iff_true, Int.not_le.2 hoff, false_and, iff_false]
    exact ⟨trivial, by decide⟩
  · cases memory_reg with
    | none =>
      simp only [hoff, if_false, or_true, iff_true, ne_eq, not_true_eq_false, and_false,
        iff_false]
      exact ⟨trivial, by decide⟩
    | some file =>
      simp only [hoff, if_false, false_or, Int.not_lt.1 hoff, ne_eq, not_false_eq_true,
        and_self, iff_true, reduceCtorEq, iff_false]

/-! ## The loop guard -/

/-- C16: two images that agree up to and including the first exact match (a
valid entry `e` preceded by valid entries none of which is an exact match, with
any padding) and continue with arbitrary bytes `rest` and `rest'` get the same
result from `tegra_choose_dtb`: 1, a copy of `e`, its length, and the same
history of scanned entries.  The bytes after `e` have no influence. -/
theorem choose_dtb_short_circuit (lib : LibFdt) (file devid_mem : List Nat)
    (pre : List (List Nat × Nat)) (e rest rest' : List Nat) (fuel : Nat)
    (hpre : ∀ x ∈ pre, ValidEntry lib x.1 ∧ ¬ Exact lib (read_devid file devid_mem) x.1)
    (he : ValidEntry lib e) (hex : Exact lib (read_devid file devid_mem) e)
    (hf : pre.length < fuel) :
    ∃ r, tegra_choose_dtb lib (some file) devid_mem fuel (layout pre ++ (e ++ rest)) = some r ∧
      tegra_choose_dtb lib (some file) devid_mem fuel (layout pre ++ (e ++ rest')) = some r ∧
      r.ret = 1 ∧ r.dtb_buf = some e ∧ r.dtb_length = some e.length := by
  have h1 := loop_first_exact lib _ (read_devid_rev_lt file devid_mem) pre e rest
    (fun x hx => (hpre x hx).1) (fun x hx => (hpre x hx).2) he hex fuel hf
  have h2 := loop_first_exact lib _ (read_devid_rev_lt file devid_mem) pre e rest'
    (fun x hx => (hpre x hx).1) (fun x hx => (hpre x hx).2) he hex fuel hf
  rw [← tegra_choose_dtb_some] at h1 h2
  exact ⟨_, h1, h2, rfl, rfl, rfl⟩

set_option maxRecDepth 100000 in
/-- Witness for C16: device `(7,3,5)`; both images start with a `(7,3,4)` entry,
a padding byte and a `(7,3,5)` entry; one continues with a `(7,3,2)` entry, the
other with three bytes that are no header. -/
theorem choose_dtb_short_circuit_witness :
    ∃ r, tegra_choose_dtb ref_libfdt (some (sample_boardids 7 3 5)) [] 2
        (layout [(sample_dtb 7 3 4 0, 1)] ++ (sample_dtb 7 3 5 0 ++ sample_dtb 7 3 2 0))
        = some r ∧
      tegra_choose_dtb ref_libfdt (some (sample_boardids 7 3 5)) [] 2
        (layout [(sample_dtb 7 3 4 0, 1)] ++ (sample_dtb 7 3 5 0 ++ [1, 2, 3])) = some r ∧
      r.ret = 1 ∧ r.dtb_buf = some (sample_dtb 7 3 5 0) ∧
      r.dtb_length = some (sample_dtb 7 3 5 0).length :=
  choose_dtb_short_circuit ref_libfdt (sample_boardids 7 3 5) []
    [(sample_dtb 7 3 4 0, 1)] (sample_dtb 7 3 5 0) (sample_dtb 7 3 2 0) [1, 2, 3] 2
    (by
      intro x hx
      rw [List.mem_singleton.1 hx]
      exact ⟨sample_dtb_valid_734, by decide⟩)
    sample_dtb_valid_735 (by decide) (by decide)

/-! ## The bound test of line 92 on the 32-bit target -/

/-- The 32-bit iteration is the iteration of `scan_iter` whenever the address
of the cursor plus the declared size stays below `2^32` (the image lying in
the address space with a header's worth of room above it, the cursor inside
the image). -/
theorem scan_iter_32_eq (lib : LibFdt) (devid : tegra_id) (dtb_img_addr : Nat)
    (dtb_img : List Nat) (s : ScanState)
    (haddr : dtb_img_addr + dtb_img.length + lib.sizeof_fdt_header < 4294967296)
    (hs : s.dtb ≤ dtb_img.length)
    (hnowrap : dtb_img_addr + s.dtb
      + lib.fdt_totalsize (memcpy_from dtb_img s.dtb lib.sizeof_fdt_header) % 4294967296
        < 4294967296) :
    scan_iter_32 lib devid dtb_img_addr dtb_img s =
      match scan_iter lib devid dtb_img s with
      | Sum.inl r => Iter32.result r
      | Sum.inr s' => Iter32.next s' := by
  have hg : (dtb_img_addr + s.dtb + lib.sizeof_fdt_header) % 4294967296
      = dtb_img_addr + s.dtb + lib.sizeof_fdt_header := Nat.mod_eq_of_lt (by omega)
  have ht : (dtb_img_addr + s.dtb
      + lib.fdt_totalsize (memcpy_from dtb_img s.dtb lib.sizeof_fdt_header) % 4294967296)
        % 4294967296
      = dtb_img_addr + s.dtb
        + lib.fdt_totalsize (memcpy_from dtb_img s.dtb lib.sizeof_fdt_header) % 4294967296 :=
    Nat.mod_eq_of_lt hnowrap
  unfold scan_iter_32 scan_iter
  simp only [hg, ht]
  by_cases h1 : s.dtb + lib.sizeof_fdt_header < dtb_img.length
  · have h1' : dtb_img_addr + s.dtb + lib.sizeof_fdt_header
        < dtb_img_addr + dtb_img.length := by omega
    rw [if_pos h1, if_pos h1']
    by_cases h2 : lib.fdt_check_header (memcpy_from dtb_img s.dtb lib.sizeof_fdt_header) ≠ 0 ∨
        s.dtb + lib.fdt_totalsize (memcpy_from dtb_img s.dtb lib.sizeof_fdt_header)
          % 4294967296 > dtb_img.length
    · have h2' : lib.fdt_check_header (memcpy_from dtb_img s.dtb lib.sizeof_fdt_header) ≠ 0 ∨
          dtb_img_addr + s.dtb
            + lib.fdt_totalsize (memcpy_from dtb_img s.dtb lib.sizeof_fdt_header) % 4294967296
            > dtb_img_addr + dtb_img.length := by
        rcases h2 with h | h
        · exact Or.inl h
        · exact Or.inr (by omega)
      rw [if_pos h2, if_pos h2']
    · have h2' : ¬ (lib.fdt_check_header (memcpy_from dtb_img s.dtb lib.sizeof_fdt_header) ≠ 0 ∨
          dtb_img_addr + s.dtb
            + lib.fdt_totalsize (memcpy_from dtb_img s.dtb lib.sizeof_fdt_header) % 4294967296
            > dtb_img_addr + dtb_img.length) := by
        intro h
        apply h2
        rcases h with h | h
        · exact Or.inl h
        · exact Or.inr (by omega)
      have h3 : ¬ dtb_img.length < s.dtb
          + lib.fdt_totalsize (memcpy_from dtb_img s.dtb lib.sizeof_fdt_header) % 4294967296 :=
        fun h => h2 (Or.inr h)
      rw [if_neg h2, if_neg h2', if_neg h3]
      split_ifs <;> rfl
  · have h1' : ¬ dtb_img_addr + s.dtb + lib.sizeof_fdt_header
        < dtb_img_addr + dtb_img.length := by omega
    rw [if_neg h1, if_neg h1']

/-- The bound test of line 92 never fires on a sum that wraps: when more than
a header remains at the cursor, the header there passes `fdt_check_header` and
the address of the cursor plus the declared size reaches `2^32`, the 32-bit
iteration accepts the entry, which ends beyond the image. -/
theorem scan_iter_32_wraps (lib : LibFdt) (devid : tegra_id) (dtb_img_addr : Nat)
    (dtb_img : List Nat) (s : ScanState)
    (haddr : dtb_img_addr + dtb_img.length + lib.sizeof_fdt_header < 4294967296)
    (h1 : s.dtb + lib.sizeof_fdt_header < dtb_img.length)
    (hchk : lib.fdt_check_header (memcpy_from dtb_img s.dtb lib.sizeof_fdt_header) = 0)
    (hwrap : 4294967296 ≤ dtb_img_addr + s.dtb
      + lib.fdt_totalsize (memcpy_from dtb_img s.dtb lib.sizeof_fdt_header) % 4294967296) :
    scan_iter_32 lib devid dtb_img_addr dtb_img s
      = Iter32.outside s.dtb
          (lib.fdt_totalsize (memcpy_from dtb_img s.dtb lib.sizeof_fdt_header) % 4294967296) := by
  have hg : (dtb_img_addr + s.dtb + lib.sizeof_fdt_header) % 4294967296
      < dtb_img_addr + dtb_img.length := by
    rw [Nat.mod_eq_of_lt (by omega)]
    omega
  have hsz : lib.fdt_totalsize (memcpy_from dtb_img s.dtb lib.sizeof_fdt_header) % 4294967296
      < 4294967296 := Nat.mod_lt _ (by decide)
  have ht : ¬ (lib.fdt_check_header (memcpy_from dtb_img s.dtb lib.sizeof_fdt_header) ≠ 0 ∨
      (dtb_img_addr + s.dtb
        + lib.fdt_totalsize (memcpy_from dtb_img s.dtb lib.sizeof_fdt_header) % 4294967296)
          % 4294967296 > dtb_img_addr + dtb_img.length) := by
    rw [hchk]
    simp only [ne_eq, not_true_eq_false, false_or, gt_iff_lt, not_lt]
    omega
  have h3 : dtb_img.length < s.dtb
      + lib.fdt_totalsize (memcpy_from dtb_img s.dtb lib.sizeof_fdt_header) % 4294967296 := by
    omega
  unfold scan_iter_32
  simp only [hg, if_true, ht, if_false, h3]

set_option maxRecDepth 100000 in
/-- C17, the code at the failing input: device `(7,3,5)`, image at address
`0xb6f00000` made of a `(7,3,3)` entry and a `(7,3,4)` blob whose header
declares a total size of `0xffffff00`, far more than the 112 bytes left.  The
first iteration records the `(7,3,3)` entry.  In the second the sum of line 92
wraps to `0xb6efff70`, below `dtb_end`, so the header whose size overruns the
buffer does not end the scan: the blob is taken as an entry of `0xffffff00`
bytes. -/
theorem scan_overrun_not_detected :
    scan_iter_32 ref_libfdt (read_devid (sample_boardids 7 3 5) []) 3069181952
        (sample_dtb 7 3 3 0 ++ sample_dtb_sized 7 3 4 4294967040) tegra_choose_dtb_init
      = Iter32.next { dtb := 112
                      dtb_id := ⟨7, 3, 3⟩
                      bestmatch_tag := some 0
                      bestmatch_tag_size := 112
                      bestmatch_board_rev_id := 3
                      yielded := [(0, 112)] } ∧
    (sample_dtb 7 3 3 0 ++ sample_dtb_sized 7 3 4 4294967040).length < 112 + 4294967040 ∧
    scan_iter_32 ref_libfdt (read_devid (sample_boardids 7 3 5) []) 3069181952
        (sample_dtb 7 3 3 0 ++ sample_dtb_sized 7 3 4 4294967040)
        { dtb := 112
          dtb_id := ⟨7, 3, 3⟩
          bestmatch_tag := some 0
          bestmatch_tag_size := 112
          bestmatch_board_rev_id := 3
          yielded := [(0, 112)] }
      = Iter32.outside 112 4294967040 := by
  decide

set_option maxRecDepth 100000 in
/-- C18, the code at the failing input: device `(7,3,5)`, image at address
`0xb6f00000` that is one `(7,3,5)` blob of 112 bytes whose header declares a
total size of `0xffffffff`.  The sum of line 92 wraps to `0xb6efffff`, below
`dtb_end`, and the test lets the entry through: the candidate has offset 0 and
size `0xffffffff`, and offset plus size is not within the image length. -/
theorem scan_candidate_outside_image :
    (sample_dtb_sized 7 3 5 4294967295).length = 112 ∧
    scan_iter_32 ref_libfdt (read_devid (sample_boardids 7 3 5) []) 3069181952
        (sample_dtb_sized 7 3 5 4294967295) tegra_choose_dtb_init
      = Iter32.outside 0 4294967295 ∧
    ¬ (0 + 4294967295 ≤ (sample_dtb_sized 7 3 5 4294967295).length) := by
  decide

/-! ## The invariant on the best-match variables -/

theorem revInv_init (lib : LibFdt) (devid : tegra_id) (dtb_img : List Nat) :
    RevInv lib devid dtb_img tegra_choose_dtb_init :=
  ⟨⟨fun _ => rfl, fun _ => rfl⟩, fun _ _ hc => absurd hc (List.not_mem_nil _),
    fun _ h => absurd h (by simp [tegra_choose_dtb_init])⟩

/-- Scanning an entry that is not an older compatible one keeps the
invariant. -/
theorem revInv_yield_other (lib : LibFdt) (devid dtb_id : tegra_id) (dtb_img : List Nat)
    (dtb_size : Nat) (s : ScanState) (hs : RevInv lib devid dtb_img s)
    (hno : ¬ Older lib devid (dtb_img.drop s.dtb)) :
    RevInv lib devid dtb_img
      { s with dtb_id := dtb_id, yielded := s.yielded ++ [(s.dtb, dtb_size)] } := by
  obtain ⟨hiff, hnone, hsome⟩ := hs
  refine ⟨hiff, ?_, ?_⟩
  · intro htag c hc
    rcases List.mem_append.1 hc with hc | hc
    · exact hnone htag c hc
    · rw [List.mem_singleton.1 hc]; exact hno
  · intro tag htag
    obtain ⟨h1, h2, h3, h4, h5⟩ := hsome tag htag
    refine ⟨h1, List.mem_append_left _ h2, h3, h4, ?_⟩
    intro c hc hoc
    rcases List.mem_append.1 hc with hc | hc
    · exact h5 c hc hoc
    · rw [List.mem_singleton.1 hc] at hoc; exact absurd hoc hno

/-- Scanning a compatible entry and running the `else if` branch on it keeps
the invariant. -/
theorem revInv_record (lib : LibFdt) (devid dtb_id : tegra_id) (dtb_img : List Nat)
    (dtb_size : Nat) (s : ScanState) (hdev : devid.board_rev < 4294967296)
    (hs : RevInv lib devid dtb_img s)
    (hc : Compatible lib devid (dtb_img.drop s.dtb))
    (hid : dtb_id.board_rev = entry_rev lib devid (dtb_img.drop s.dtb)) :
    RevInv lib devid dtb_img
      (record_bestmatch devid dtb_id dtb_size
        { s with dtb_id := dtb_id, yielded := s.yielded ++ [(s.dtb, dtb_size)] }) := by
  unfold record_bestmatch
  by_cases hlt : dtb_id.board_rev < devid.board_rev
  · have hold : Older lib devid (dtb_img.drop s.dtb) := ⟨hc, hid ▸ hlt⟩
    obtain ⟨hiff, hnone, hsome⟩ := hs
    rw [if_pos hlt]
    by_cases hupd : s.bestmatch_board_rev_id = INVALID_REV_ID ∨
        s.bestmatch_board_rev_id < dtb_id.board_rev
    · rw [if_pos hupd]
      refine ⟨⟨fun h => absurd h (by simp), fun h => ?_⟩, fun h => absurd h (by simp), ?_⟩
      · have h' : dtb_id.board_rev = INVALID_REV_ID := h
        unfold INVALID_REV_ID at h'
        omega
      · intro tag htag
        have ht : s.dtb = tag := Option.some.inj htag
        subst ht
        refine ⟨hlt, List.mem_append_right _ (List.mem_singleton_self _), hold, hid, ?_⟩
        intro c hcm hoc
        show entry_rev lib devid (dtb_img.drop c.1) ≤ dtb_id.board_rev
        rcases List.mem_append.1 hcm with hcm | hcm
        · cases htag0 : s.bestmatch_tag with
          | none => exact absurd hoc (hnone htag0 c hcm)
          | some t0 =>
            obtain ⟨_, _, _, _, h5⟩ := hsome t0 htag0
            have hle := h5 c hcm hoc
            have hne : s.bestmatch_board_rev_id ≠ INVALID_REV_ID := by
              intro h
              have := hiff.2 h
              rw [htag0] at this
              exact absurd this (by simp)
            rcases hupd with hu | hu
            · exact absurd hu hne
            · omega
        · rw [List.mem_singleton.1 hcm, hid]
    · rw [if_neg hupd]
      refine ⟨hiff, ?_, ?_⟩
      · intro htag
        exact absurd (Or.inl (hiff.1 htag)) hupd
      · intro tag htag
        obtain ⟨h1, h2, h3, h4, h5⟩ := hsome tag htag
        refine ⟨h1, List.mem_append_left _ h2, h3, h4, ?_⟩
        intro c hcm hoc
        rcases List.mem_append.1 hcm with hcm | hcm
        · exact h5 c hcm hoc
        · rw [List.mem_singleton.1 hcm]
          show entry_rev lib devid (dtb_img.drop s.dtb) ≤ s.bestmatch_board_rev_id
          have : ¬ s.bestmatch_board_rev_id < dtb_id.board_rev := fun h => hupd (Or.inr h)
          omega
  · rw [if_neg hlt]
    exact revInv_yield_other lib devid dtb_id dtb_img dtb_size s hs
      (fun ho => hlt (hid ▸ ho.2))

/-- One iteration keeps the invariant on the best-match variables. -/
theorem scan_iter_revInv (lib : LibFdt) (devid : tegra_id) (dtb_img : List Nat)
    (s s' : ScanState) (hdev : devid.board_rev < 4294967296)
    (hs : RevInv lib devid dtb_img s) (hit : scan_iter lib devid dtb_img s = Sum.inr s') :
    RevInv lib devid dtb_img s' := by
  unfold scan_iter at hit
  simp only at hit
  have hfst := tegra_dtb_compatible_fst lib (dtb_img.drop s.dtb) devid s.dtb_id ⟨0, 0, 0⟩
  split_ifs at hit with h1 h2 hc hx
  · rw [← Sum.inr.inj hit]
    have hcomp : Compatible lib devid (dtb_img.drop s.dtb) := by
      unfold Compatible; rw [← hfst]; exact hc
    have hid : (tegra_dtb_compatible lib (dtb_img.drop s.dtb) devid s.dtb_id).2.board_rev
        = entry_rev lib devid (dtb_img.drop s.dtb) := by
      unfold entry_rev
      rw [tegra_dtb_compatible_snd lib _ devid s.dtb_id ⟨0, 0, 0⟩ hc]
    exact revInv_record lib devid _ dtb_img _ s hdev hs hcomp hid
  · rw [← Sum.inr.inj hit]
    have hno : ¬ Older lib devid (dtb_img.drop s.dtb) := by
      intro ho
      apply hc
      have := ho.1
      unfold Compatible at this
      rw [hfst]
      exact this
    exact revInv_yield_other lib devid
      (tegra_dtb_compatible lib (dtb_img.drop s.dtb) devid s.dtb_id).2 dtb_img
      (lib.fdt_totalsize (memcpy_from dtb_img s.dtb lib.sizeof_fdt_header) % 4294967296)
      s hs hno

theorem reachable_revInv (lib : LibFdt) (devid : tegra_id) (dtb_img : List Nat)
    (hdev : devid.board_rev < 4294967296) (s : ScanState)
    (hs : Reachable lib devid dtb_img s) : RevInv lib devid dtb_img s := by
  induction hs with
  | init => exact revInv_init lib devid dtb_img
  | step _ hit ih => exact scan_iter_revInv lib devid dtb_img _ _ hdev ih hit

/-- The reachable states are the states the loop of the call goes through:
from the state at loop entry, some number of iterations leads to `s`. -/
theorem reachable_loop (lib : LibFdt) (devid : tegra_id) (dtb_img : List Nat) (s : ScanState)
    (hs : Reachable lib devid dtb_img s) :
    ∃ n, ∀ fuel, tegra_choose_dtb_loop lib devid dtb_img (n + fuel) tegra_choose_dtb_init
      = tegra_choose_dtb_loop lib devid dtb_img fuel s := by
  induction hs with
  | init => exact ⟨0, fun fuel => by rw [Nat.zero_add]⟩
  | step _ hit ih =>
    obtain ⟨n, hn⟩ := ih
    refine ⟨n + 1, fun fuel => ?_⟩
    have : n + 1 + fuel = n + (fuel + 1) := by omega
    rw [this, hn (fuel + 1), tegra_choose_dtb_loop_succ, hit]

/-- C19: in every state the loop of `tegra_choose_dtb` is in at the start of
an iteration or at its exit (the states reachable from loop entry, see
`reachable_loop`), `bestmatch_tag` is `NULL` exactly when
`bestmatch_board_rev_id` is `INVALID_REV_ID`; and when it is not `NULL`, the
recorded revision differs from the sentinel, is strictly below the device's
`board_rev`, is the revision of the recorded entry, an older compatible entry
of the scan history, and no older compatible entry scanned so far has a
higher one.  The device identity is the one decoded from the identity source,
any three 32-bit words. -/
theorem choose_dtb_bestmatch_invariant (lib : LibFdt) (file devid_mem : List Nat)
    (dtb_img : List Nat) (s : ScanState)
    (hs : Reachable lib (read_devid file devid_mem) dtb_img s) :
    (s.bestmatch_tag = none ↔ s.bestmatch_board_rev_id = INVALID_REV_ID) ∧
    ∀ tag, s.bestmatch_tag = some tag →
      s.bestmatch_board_rev_id ≠ INVALID_REV_ID ∧
      s.bestmatch_board_rev_id < (read_devid file devid_mem).board_rev ∧
      (tag, s.bestmatch_tag_size) ∈ s.yielded ∧
      Older lib (read_devid file devid_mem) (dtb_img.drop tag) ∧
      s.bestmatch_board_rev_id = entry_rev lib (read_devid file devid_mem) (dtb_img.drop tag) ∧
      ∀ c ∈ s.yielded, Older lib (read_devid file devid_mem) (dtb_img.drop c.1) →
        entry_rev lib (read_devid file devid_mem) (dtb_img.drop c.1)
          ≤ s.bestmatch_board_rev_id := by
  obtain ⟨hiff, _, hsome⟩ := reachable_revInv lib (read_devid file devid_mem) dtb_img
    (read_devid_rev_lt file devid_mem) s hs
  refine ⟨hiff, fun tag htag => ?_⟩
  obtain ⟨h1, h2, h3, h4, h5⟩ := hsome tag htag
  refine ⟨fun h => ?_, h1, h2, h3, h4, h5⟩
  have := hiff.2 h
  rw [htag] at this
  exact absurd this (by simp)

set_option maxRecDepth 100000 in
/-- Witness for C19: device `(7,3,5)`, image entries `(7,3,3)`, `(7,3,4)`; the
state after the first iteration, in which the `(7,3,3)` entry is recorded. -/
theorem choose_dtb_bestmatch_invariant_witness :
    ((some 0 : Option Nat) = none ↔ 3 = INVALID_REV_ID) ∧
    ∀ tag, (some 0 : Option Nat) = some tag →
      3 ≠ INVALID_REV_ID ∧
      3 < (read_devid (sample_boardids 7 3 5) []).board_rev ∧
      (tag, 112) ∈ ([(0, 112)] : List (Nat × Nat)) ∧
      Older ref_libfdt (read_devid (sample_boardids 7 3 5) [])
        ((sample_dtb 7 3 3 0 ++ sample_dtb 7 3 4 0).drop tag) ∧
      3 = entry_rev ref_libfdt (read_devid (sample_boardids 7 3 5) [])
        ((sample_dtb 7 3 3 0 ++ sample_dtb 7 3 4 0).drop tag) ∧
      ∀ c ∈ ([(0, 112)] : List (Nat × Nat)),
        Older ref_libfdt (read_devid (sample_boardids 7 3 5) [])
          ((sample_dtb 7 3 3 0 ++ sample_dtb 7 3 4 0).drop c.1) →
        entry_rev ref_libfdt (read_devid (sample_boardids 7 3 5) [])
          ((sample_dtb 7 3 3 0 ++ sample_dtb 7 3 4 0).drop c.1) ≤ 3 :=
  choose_dtb_bestmatch_invariant ref_libfdt (sample_boardids 7 3 5) []
    (sample_dtb 7 3 3 0 ++ sample_dtb 7 3 4 0)
    { dtb := 112
      dtb_id := ⟨7, 3, 3⟩
      bestmatch_tag := some 0
      bestmatch_tag_size := 112
      bestmatch_board_rev_id := 3
      yielded := [(0, 112)] }
    (Reachable.step Reachable.init (by decide))

/-! ## The buffer when `tegra_add_extra_regs` fails -/

/-- C20: whenever `tegra_add_extra_regs` returns -1, the buffer after the call
is the buffer before the call: neither `fdt_delprop` nor `fdt_appendprop` has
run, the deletion of `reg` comes only after the source has opened. -/
theorem add_extra_regs_failure_keeps_buffer {Buf : Type} (lib : LibFdtRw Buf)
    (memory_reg : Option (List Nat)) (dtb_buf : Buf)
    (h : (tegra_add_extra_regs lib memory_reg dtb_buf).1 = -1) :
    (tegra_add_extra_regs lib memory_reg dtb_buf).2 = dtb_buf := by
  unfold tegra_add_extra_regs at h ⊢
  by_cases hoff : lib.fdt_path_offset dtb_buf "/memory" < 0
  · simp only [hoff, if_true]
  · cases memory_reg with
    | none => simp only [hoff, if_false]
    | some file =>
      simp only [hoff, if_false] at h
      exact absurd h (by decide)

/-- Witness for C20: the sample buffer, whose `/memory` node exists, and a
memory-map source that cannot be opened. -/
theorem add_extra_regs_failure_keeps_buffer_witness :
    (tegra_add_extra_regs ref_libfdt_rw none sample_tree).2 = sample_tree :=
  add_extra_regs_failure_keeps_buffer ref_libfdt_rw none sample_tree (by decide)

end MachTegra
